import Mathlib

/-!
Shallow embedding of the timetable scheduler in `src/main.py`.

Python values are modelled as follows: `str` as `String`, `float` credit and
weight values as `ℚ` (the program only ever compares, negates and doubles
them), Python `set` as `Finset String`, the two shared dictionaries
`slots_used` and `teacher_slots` as total functions with explicit default
values (`∅`, `none`), and the pandas `DataFrame` table as a function from
(row label, column label) to a cell.  A cell in the source is either a string
(initially `""`, later a lock name or a diagnostic label) or a dict
`{code, teacher, room}`; this is the inductive `Cell` below, with
`Cell.str ""` playing the role of the empty cell exactly as the source's
`!= ""` test does.  `re.match(r"([A-Z]+)(\d+)", s)` is modelled by taking the
maximal leading run of `A`-`Z` characters followed by a maximal run of ASCII
digits (the two character classes are disjoint, so the greedy regex never
backtracks).  Python's `str.strip`/`str.upper` are modelled on the ASCII
fragment, which is the only fragment the matched identifiers can use.
-/

namespace Scheduler

/-- ASCII whitespace test modelling what Python's `str.strip` removes. -/
def isWS (c : Char) : Bool := c.isWhitespace

/-- Model of Python `str.strip`: drop whitespace at both ends. -/
def pyStrip (s : String) : String :=
  String.mk (((s.data.dropWhile isWS).reverse.dropWhile isWS).reverse)

/-- Model of Python `str.upper` (character-wise uppercasing). -/
def pyUpper (s : String) : String := String.mk (s.data.map Char.toUpper)

/-- Character class `[A-Z]` of the regexes in the source. -/
def isAZ (c : Char) : Bool := 65 ≤ c.toNat && c.toNat ≤ 90

/-- Character class `\d` (ASCII digits) of the regexes in the source. -/
def isDig (c : Char) : Bool := 48 ≤ c.toNat && c.toNat ≤ 57

/-- Model of `re.match(r"([A-Z]+)(\d+)", s)`: the maximal leading `[A-Z]` run
and the digit run that follows it; `none` when either run is empty, i.e. when
the regex does not match at the start of the string. -/
def matchLettersDigits (s : String) : Option (String × String) :=
  let ls := s.data.takeWhile isAZ
  let ds := (s.data.dropWhile isAZ).takeWhile isDig
  if ls.isEmpty || ds.isEmpty then none else some (String.mk ls, String.mk ds)

/-- Numeric value of a digit string, as Python `int` reads the digit groups
produced by the regexes (`"10"` becomes `10`). -/
def natOfDigits (s : String) : Nat :=
  s.data.foldl (fun n c => 10 * n + (c.toNat - 48)) 0

/-- `convert_room_letter_to_number` from `src/main.py` (lines 178-184): match
`([A-Z]+)(\d+)` against the stripped and uppercased room label; on failure
return the input unchanged, otherwise replace the letter block through the
mapping (`str(mapping.get(letter, letter))`) and append the digit block.
The Python mapping is a `dict[str, int]`, modelled as `String → Option Int`;
`toString : Int → String` agrees with Python `str` on integers. -/
def convert_room_letter_to_number (room : String) (mapping : String → Option Int) : String :=
  match matchLettersDigits (pyUpper (pyStrip room)) with
  | none => room
  | some (letter, number) =>
      (match mapping letter with
       | some v => toString v
       | none => letter) ++ number

/-- Split a character list at every occurrence of `sep`, keeping empty
pieces, as Python `str.split` with an explicit separator does
(`"a//b".split("/") == ["a", "", "b"]`, `"".split("/") == [""]`).
The result is never empty. -/
def splitChar (sep : Char) : List Char → List (List Char)
  | [] => [[]]
  | c :: rest =>
      let r := splitChar sep rest
      if c = sep then [] :: r
      else
        match r with
        | [] => [[c]]
        | x :: xs => (c :: x) :: xs

/-- Model of Python `room.split("/")`. -/
def pySplitSlash (room : String) : List String :=
  (splitChar '/' room.data).map String.mk

/-- `short_room` from `src/main.py` (lines 64-66): `parts = room.split("/")`
then `parts[0] + parts[-1]` (so a room with no `/` is doubled). -/
def short_room (room : String) : String :=
  let parts := pySplitSlash room
  parts.headD "" ++ parts.getLastD ""

/-- `parse_room_building` from `src/main.py` (lines 350-351):
`room.strip().split("/")[0].upper()`. -/
def parse_room_building (room : String) : String :=
  pyUpper ((pySplitSlash (pyStrip room)).headD "")

/-- A subject row (and equally a task, which the source builds as a value
copy of a subject dict): `code`, `credit`, `teacher`, `weight`, `group`,
`actual_room` as produced by `load_subjects`. -/
structure Task where
  code : String
  credit : ℚ
  teacher : String
  weight : ℚ
  group : String
  actual_room : List String
deriving DecidableEq, Repr

/-- Python `int()` on a rational value: truncation toward zero. -/
def pyInt (q : ℚ) : ℤ := if 0 ≤ q then ⌊q⌋ else -⌊-q⌋

/-- Number of tasks one subject generates: `max(1, int(s["credit"] * 2))`
(`src/main.py` lines 161 and 222).  The value is at least 1, so `Int.toNat`
is exact. -/
def taskCount (s : Task) : Nat := (max 1 (pyInt (s.credit * 2))).toNat

/-- Sort key order of `build_tasks` (`src/main.py` lines 159-163): Python
sorts stably by the tuple `(-weight, room_key_full(group), code)` where
`room_key_full(room) = (room.strip(),)`. -/
def buildTasksLe (a b : Task) : Bool :=
  if a.weight ≠ b.weight then decide (b.weight < a.weight)
  else if pyStrip a.group ≠ pyStrip b.group then decide (pyStrip a.group < pyStrip b.group)
  else decide (a.code ≤ b.code)

/-- `build_tasks` from `src/main.py` (lines 159-163): replicate each subject
`taskCount` times, then sort stably by `buildTasksLe` (Python `sorted` is a
stable sort; `List.mergeSort` is the stable sort of the Lean library). -/
def build_tasks (subs : List Task) : List Task :=
  List.mergeSort (subs.flatMap (fun s => List.replicate (taskCount s) s)) buildTasksLe

/-- Day codes in the order the source iterates them. -/
def dayCodes : List String := ["M", "T", "W", "TH", "F"]

/-- Slot order for a low credit load (`total_credit ≤ 18`), mirroring the
appends in `generate_schedule_slots` (`src/main.py` lines 296-303). -/
def slotsLow : List String :=
  dayCodes.flatMap (fun d => [d ++ "2", d ++ "3"]) ++
  dayCodes.map (fun d => d ++ "6") ++
  dayCodes.map (fun d => d ++ "7") ++
  ([4, 1] : List Nat).flatMap (fun p => dayCodes.map (fun d => d ++ toString p)) ++
  ([8, 9, 10, 11] : List Nat).flatMap (fun p => dayCodes.map (fun d => d ++ toString p))

/-- Slot order for a high credit load (`total_credit > 18`), mirroring the
appends in `generate_schedule_slots` (`src/main.py` lines 304-308). -/
def slotsHigh : List String :=
  dayCodes.flatMap (fun d => [d ++ "2", d ++ "3"]) ++
  dayCodes.flatMap (fun d => [d ++ "6", d ++ "7"]) ++
  ([4, 1] : List Nat).flatMap (fun p => dayCodes.map (fun d => d ++ toString p)) ++
  ([8, 9, 10, 11] : List Nat).flatMap (fun p => dayCodes.map (fun d => d ++ toString p))

/-- `generate_schedule_slots` from `src/main.py` (lines 272-310). -/
def generate_schedule_slots (total_credit : ℚ) : List String :=
  if total_credit ≤ 18 then slotsLow else slotsHigh

/-- `DAY_TH_TO_CODE` from `src/main.py` (lines 15-19): Thai day name to day
code; a Python dict lookup, `none` when the key is absent (where the source
would raise `KeyError`, declared undefined behaviour by the spec). -/
def DAY_TH_TO_CODE : String → Option String := fun d =>
  if d = "จันทร์" then some "M"
  else if d = "อังคาร" then some "T"
  else if d = "พุธ" then some "W"
  else if d = "พฤหัสบดี" then some "TH"
  else if d = "ศุกร์" then some "F"
  else none

/-- `day_map` from `src/main.py` (line 196): day code to table row label. -/
def day_map : String → String := fun d =>
  if d = "M" then "Mon"
  else if d = "T" then "Tue"
  else if d = "W" then "Wed"
  else if d = "TH" then "Thu"
  else if d = "F" then "Fri"
  else ""

/-- A table cell: the source stores either a plain string (the initial `""`,
a lock name, or a diagnostic label) or a dict `{code, teacher, room}`.
`Cell.str ""` is the empty cell; the source's emptiness test is `!= ""`. -/
inductive Cell where
  | str : String → Cell
  | placed : String → String → String → Cell
deriving DecidableEq, Repr

/-- The per-group table: 5 rows (named `Mon`..`Fri`) times 11 columns. -/
abbrev Table := String → Nat → Cell

/-- Write one table cell (`table.at[d, p] = v`). -/
def setCell (T : Table) (d : String) (p : Nat) (c : Cell) : Table :=
  fun d' p' => if d' = d ∧ p' = p then c else T d' p'

/-- The shared conflict-tracker state threaded through every `schedule_room`
call of one run: `slots_used : slot → set of occupant ids` and
`teacher_slots : teacher → slot → room`. -/
structure SchedState where
  slots_used : String → Finset String
  teacher_slots : String → String → Option String

/-- The state both GUI entry points create at the start of a run: every slot
maps to an empty set, no teacher occupies anything. -/
def initialState : SchedState :=
  { slots_used := fun _ => ∅, teacher_slots := fun _ _ => none }

/-- A lock record as built by `add_lock` (`src/main.py` lines 423-444):
`name`, `rooms` (group ids, or the sentinel `"ALL"`), Thai `day`, `period`
(stored by the source as `str(p)` and read back with `int`, hence a `Nat`). -/
structure Lock where
  name : String
  rooms : List String
  day : String
  period : Nat
deriving DecidableEq, Repr

/-- One iteration of the lock loop in `schedule_room` (`src/main.py` lines
209-215): a matching lock writes its name at `(day_map[d], p)` and adds the
group id to `slots_used[f"{d}{p}"]`.  A matching lock whose Thai day is not a
`DAY_TH_TO_CODE` key makes the source raise `KeyError`; this model leaves the
state unchanged there (the spec declares malformed locks undefined
behaviour), and the theorems about locks assume well-formed days. -/
def applyLock (group : String) (acc : Table × SchedState) (lk : Lock) : Table × SchedState :=
  if "ALL" ∈ lk.rooms ∨ group ∈ lk.rooms then
    match DAY_TH_TO_CODE lk.day with
    | some d =>
        let sl := d ++ toString lk.period
        (setCell acc.1 (day_map d) lk.period (Cell.str lk.name),
         { acc.2 with
            slots_used := fun sl' =>
              if sl' = sl then insert group (acc.2.slots_used sl') else acc.2.slots_used sl' })
    | none => acc
  else acc

/-- The whole lock loop of `schedule_room`. -/
def applyLocks (group : String) (locks : List Lock) (T : Table) (σ : SchedState) :
    Table × SchedState :=
  locks.foldl (applyLock group) (T, σ)

/-- The inner room loop of the slot scan (`src/main.py` lines 244-261):
walk `t["actual_room"]` in order; an occupied room sets the `room_conf` flag
and moves on, the first free room is accepted.  Returns the flag contribution
of this task and the accepted room, if any. -/
def findFree (used : Finset String) : List String → Bool × Option String
  | [] => (false, none)
  | r :: rs =>
      if r ∈ used then (true, (findFree used rs).2)
      else (false, some r)

/-- Result of scanning the candidate pool at one slot. -/
structure ScanOut where
  found : Option (Task × String)
  tr_rooms : Finset String
  room_conf : Bool

/-- The candidate scan at one slot (`src/main.py` lines 237-264): walk the
pool in order; a task whose teacher already occupies the slot adds the
conflicting room to `tr_rooms` and is passed over; otherwise the first free
room of the task (if any) is accepted and the scan stops. -/
def scanTasks (ts : String → String → Option String) (used : Finset String)
    (sl : String) : List Task → Finset String → Bool → ScanOut
  | [], tr, rc => ⟨none, tr, rc⟩
  | t :: rest, tr, rc =>
      match ts t.teacher sl with
      | some r => scanTasks ts used sl rest (insert r tr) rc
      | none =>
          match findFree used t.actual_room with
          | (c, some ρ) => ⟨some (t, ρ), tr, rc || c⟩
          | (c, none) => scanTasks ts used sl rest tr (rc || c)

/-- Join a list of strings with a separator, as Python `sep.join`. -/
def joinSep (sep : String) : List String → String
  | [] => ""
  | x :: xs => xs.foldl (fun acc y => acc ++ sep ++ y) x

/-- The `parts` list built by `fmt` (`src/main.py` lines 202-206): the
teacher-clash part (naming the short forms of the conflicting rooms, sorted
and deduplicated, joined by `","`) and the room-full part. -/
def fmtParts (tr_rooms : Finset String) (room_conf : Bool) : List String :=
  (if tr_rooms = ∅ then [] else
    ["ครูชนที่ " ++ joinSep "," ((tr_rooms.image short_room).sort (· ≤ ·))]) ++
  (if room_conf then ["ห้องเต็ม"] else [])

/-- `fmt` from `src/main.py` (lines 199-207): the diagnostic label written at
a slot where nothing could be placed.  `"ไม่มีวิชา"` ("no subject") when the
pool is empty, otherwise `"ไม่ได้(...)"` combining whichever flag parts were
raised. -/
def fmt (tr_rooms : Finset String) (room_conf : Bool) (total_tasks : Nat) : String :=
  if total_tasks = 0 then "ไม่มีวิชา"
  else if fmtParts tr_rooms room_conf = [] then "ไม่ได้"
  else "ไม่ได้(" ++ joinSep ", " (fmtParts tr_rooms room_conf) ++ ")"

/-- State of the slot loop of `schedule_room`: the group's table, the
remaining candidate pool (`all_tasks`), and the shared tracker. -/
structure LoopState where
  table : Table
  pool : List Task
  sched : SchedState

/-- One iteration of the slot loop of `schedule_room` (`src/main.py` lines
231-267): parse the slot, skip it if its cell is non-empty, otherwise scan
the pool; on success write the placement (with the display-converted room),
mark teacher and room as consumed and drop the task from the pool; on failure
write the diagnostic label.  Generated slots always parse; the `none` branch
is unreachable on the source's inputs. -/
def processSlot (mapping : String → Option Int) (st : LoopState) (sl : String) : LoopState :=
  match matchLettersDigits sl with
  | none => st
  | some (d, pstr) =>
      let p := natOfDigits pstr
      if st.table (day_map d) p ≠ Cell.str "" then st
      else
        let out := scanTasks st.sched.teacher_slots (st.sched.slots_used sl) sl st.pool ∅ false
        match out.found with
        | some (t, ρ) =>
            { table := setCell st.table (day_map d) p
                (Cell.placed t.code t.teacher (convert_room_letter_to_number ρ mapping))
              pool := st.pool.erase t
              sched :=
                { slots_used := fun sl' =>
                    if sl' = sl then insert t.teacher (insert ρ (st.sched.slots_used sl'))
                    else st.sched.slots_used sl'
                  teacher_slots := fun te' sl' =>
                    if te' = t.teacher ∧ sl' = sl then some ρ
                    else st.sched.teacher_slots te' sl' } }
        | none =>
            { st with
               table := setCell st.table (day_map d) p
                 (Cell.str (fmt out.tr_rooms out.room_conf st.pool.length)) }

/-- This group's subjects (`subs = [s for s in subjects if s["group"] == group]`). -/
def subsOf (group : String) (subjects : List Task) : List Task :=
  subjects.filter (fun s => s.group = group)

/-- `total_credit = sum(s["credit"] for s in subs)`. -/
def totalCredit (group : String) (subjects : List Task) : ℚ :=
  ((subsOf group subjects).map Task.credit).sum

/-- Sort key order of `sort_by_building` (`src/main.py` lines 224-225):
stable sort by `(parse_room_building(group), -weight, code)`. -/
def sortByBuildingLe (a b : Task) : Bool :=
  if parse_room_building a.group ≠ parse_room_building b.group then
    decide (parse_room_building a.group < parse_room_building b.group)
  else if a.weight ≠ b.weight then decide (b.weight < a.weight)
  else decide (a.code ≤ b.code)

/-- The candidate pool `all_tasks` built by `schedule_room` (`src/main.py`
lines 217-228): replicate each of the group's subjects `taskCount` times,
split positionally into the red (`red_n`), orange (next 10) and yellow
(rest) bands, stably sort each band by `sortByBuildingLe`, and concatenate. -/
def initialPool (group : String) (subjects : List Task) : List Task :=
  let subs := subsOf group subjects
  let red_n : Nat := if totalCredit group subjects ≤ 18 then 15 else 20
  let tasks := subs.flatMap (fun s => List.replicate (taskCount s) s)
  List.mergeSort (tasks.take red_n) sortByBuildingLe ++
  List.mergeSort ((tasks.drop red_n).take 10) sortByBuildingLe ++
  List.mergeSort (tasks.drop (red_n + 10)) sortByBuildingLe

/-- `schedule_room` from `src/main.py` (lines 188-269): apply the locks to a
fresh table, build the banded candidate pool, walk the slot sequence, and
return the filled table, the leftover tasks and the mutated shared state. -/
def schedule_room (group : String) (subjects : List Task) (σ : SchedState)
    (locks : List Lock) (mapping : String → Option Int) :
    (Table × List Task) × SchedState :=
  let T0 : Table := fun _ _ => Cell.str ""
  let lockRes := applyLocks group locks T0 σ
  let start : LoopState := ⟨lockRes.1, initialPool group subjects, lockRes.2⟩
  let fin := (generate_schedule_slots (totalCredit group subjects)).foldl
      (processSlot mapping) start
  ((fin.table, fin.pool), fin.sched)

/-- One iteration of the per-group loop of `update_grid`/`export_rooms_to`:
schedule one group against the shared state, collect its table, thread the
mutated state on. -/
def runStep (subjects : List Task) (locks : List Lock) (mapping : String → Option Int)
    (acc : List Table × SchedState) (g : String) : List Table × SchedState :=
  (acc.1 ++ [(schedule_room g subjects acc.2 locks mapping).1.1],
   (schedule_room g subjects acc.2 locks mapping).2)

/-- One run over a list of groups, threading the shared state through every
`schedule_room` call exactly as `update_grid` and `export_rooms_to` do
(`src/main.py` lines 497-499 and 597-620); collects the per-group tables. -/
def scheduleAll (groups : List String) (subjects : List Task) (locks : List Lock)
    (mapping : String → Option Int) (σ : SchedState) : List Table × SchedState :=
  groups.foldl (runStep subjects locks mapping) ([], σ)

/-- Every concrete room identifier any subject may occupy. -/
def roomUniverse (subjects : List Task) : List String :=
  subjects.flatMap Task.actual_room

/-- Is a cell a placement record? -/
def isPlacedCell : Cell → Bool
  | Cell.placed _ _ _ => true
  | Cell.str _ => false

/-- The grid positions of a table: 5 day rows times periods 1..11. -/
def gridPos : Finset (String × Nat) :=
  ({"Mon", "Tue", "Wed", "Thu", "Fri"} : Finset String) ×ˢ Finset.Icc 1 11

/-- Number of placement cells of a table. -/
def countPlacements (T : Table) : Nat :=
  ∑ q ∈ gridPos, if isPlacedCell (T q.1 q.2) then 1 else 0

/-- A slot identifier of the grid: a day code followed by one of the ten
periods the slot sequencer uses. -/
def slotSpec (sl : String) : Prop :=
  ∃ d ∈ dayCodes, ∃ p ∈ ([1, 2, 3, 4, 6, 7, 8, 9, 10, 11] : List Nat), sl = d ++ toString p

instance slotSpecDecidable (sl : String) : Decidable (slotSpec sl) := by
  unfold slotSpec
  exact inferInstance

/-- Growth order on the shared state: occupant sets only grow, recorded
teacher slots stay recorded. -/
def stateLE (σ σ' : SchedState) : Prop :=
  (∀ sl, σ.slots_used sl ⊆ σ'.slots_used sl) ∧
  (∀ te sl, (σ.teacher_slots te sl).isSome = true → (σ'.teacher_slots te sl).isSome = true)

/-- Every placement of a table is backed by the shared state: its position
names a day row, its displayed room is the conversion of a physical room of
the subject list, and the teacher and that physical room are recorded as
consumed at the slot in `σ`. -/
def placedNow (subjects : List Task) (mapping : String → Option Int)
    (σ : SchedState) (T : Table) : Prop :=
  ∀ dEn p c te r, T dEn p = Cell.placed c te r →
    ∃ d ∈ dayCodes, dEn = day_map d ∧
      ∃ ρ ∈ roomUniverse subjects, r = convert_room_letter_to_number ρ mapping ∧
        (σ.teacher_slots te (d ++ toString p)).isSome = true ∧
        ρ ∈ σ.slots_used (d ++ toString p)

/-- As `placedNow`, but additionally: at the state `σ0` from which the table
was produced, the teacher was still free and the physical room still unused
at the slot. -/
def placedFacts (subjects : List Task) (mapping : String → Option Int)
    (σ0 σ : SchedState) (T : Table) : Prop :=
  ∀ dEn p c te r, T dEn p = Cell.placed c te r →
    ∃ d ∈ dayCodes, dEn = day_map d ∧
      ∃ ρ ∈ roomUniverse subjects, r = convert_room_letter_to_number ρ mapping ∧
        σ0.teacher_slots te (d ++ toString p) = none ∧
        ρ ∉ σ0.slots_used (d ++ toString p) ∧
        (σ.teacher_slots te (d ++ toString p)).isSome = true ∧
        ρ ∈ σ.slots_used (d ++ toString p)

/-- Two tables never claim the same teacher, nor the same displayed room, at
the same grid position. -/
def tablesDistinct (T1 T2 : Table) : Prop :=
  ∀ dEn p c1 te1 r1 c2 te2 r2,
    T1 dEn p = Cell.placed c1 te1 r1 → T2 dEn p = Cell.placed c2 te2 r2 →
    te1 ≠ te2 ∧ r1 ≠ r2

/-- Every room of every task of the pool belongs to the room universe of the
subject list. -/
def poolRoomsOK (subjects : List Task) (pool : List Task) : Prop :=
  ∀ t ∈ pool, ∀ ρ ∈ t.actual_room, ρ ∈ roomUniverse subjects

/-- A table without placement cells (as tables are before the slot loop). -/
def noPlaced (T : Table) : Prop := ∀ d p, isPlacedCell (T d p) = false

/-- The relation between cells of two `schedule_room` runs that differ only
in the room-relabeling map: strings agree, placements agree on code and
teacher (the room text may differ). -/
def cellSync : Cell → Cell → Prop
  | Cell.str a, Cell.str b => a = b
  | Cell.placed co te _, Cell.placed co' te' _ => co = co' ∧ te = te'
  | _, _ => False

/-- Pointwise `cellSync`. -/
def tableSync (T T' : Table) : Prop := ∀ d p, cellSync (T d p) (T' d p)

/-- The lock matches the group (`"ALL" in lk["rooms"] or group in lk["rooms"]`). -/
def lockMatches (group : String) (lk : Lock) : Prop :=
  "ALL" ∈ lk.rooms ∨ group ∈ lk.rooms

instance lockMatchesDecidable (group : String) (lk : Lock) :
    Decidable (lockMatches group lk) := by
  unfold lockMatches
  exact inferInstance

/-- The lock matches the group and writes the table position `pos`. -/
def lockAt (group : String) (pos : String × Nat) (lk : Lock) : Prop :=
  lockMatches group lk ∧
  ∃ d, DAY_TH_TO_CODE lk.day = some d ∧ day_map d = pos.1 ∧ lk.period = pos.2

/-! ### Character and string lemmas -/

theorem ws_toNat {c : Char} (h : isWS c = true) :
    c.toNat = 32 ∨ c.toNat = 9 ∨ c.toNat = 13 ∨ c.toNat = 10 := by
  simp [isWS, Char.isWhitespace] at h
  rcases h with ((h | h) | h) | h <;> subst h <;> decide

theorem isAZ_toNat {c : Char} (h : isAZ c = true) : 65 ≤ c.toNat ∧ c.toNat ≤ 90 := by
  simpa [isAZ] using h

theorem isDig_toNat {c : Char} (h : isDig c = true) : 48 ≤ c.toNat ∧ c.toNat ≤ 57 := by
  simpa [isDig] using h

theorem isAZ_not_ws {c : Char} (h : isAZ c = true) : isWS c = false := by
  cases hw : isWS c
  · rfl
  · exact absurd (isAZ_toNat h) (by have := ws_toNat hw; omega)

theorem isDig_not_ws {c : Char} (h : isDig c = true) : isWS c = false := by
  cases hw : isWS c
  · rfl
  · exact absurd (isDig_toNat h) (by have := ws_toNat hw; omega)

theorem isDig_not_az {c : Char} (h : isDig c = true) : isAZ c = false := by
  cases ha : isAZ c
  · rfl
  · exact absurd (isAZ_toNat ha) (by have := isDig_toNat h; omega)

theorem toUpper_fixed {c : Char} (h : c.toNat < 97 ∨ 122 < c.toNat) :
    Char.toUpper c = c := by
  simp only [Char.toUpper]
  rw [if_neg (by omega)]

theorem isAZ_toUpper {c : Char} (h : isAZ c = true) : Char.toUpper c = c :=
  toUpper_fixed (by have := isAZ_toNat h; omega)

theorem isDig_toUpper {c : Char} (h : isDig c = true) : Char.toUpper c = c :=
  toUpper_fixed (by have := isDig_toNat h; omega)

theorem dropWhile_eq_self_of_none {p : Char → Bool} {l : List Char}
    (h : ∀ c ∈ l, p c = false) : l.dropWhile p = l := by
  cases l with
  | nil => rfl
  | cons a l =>
      rw [List.dropWhile_cons, h a (List.mem_cons_self a l)]
      simp

theorem map_eq_self_of_fixed {f : Char → Char} {l : List Char}
    (h : ∀ c ∈ l, f c = c) : l.map f = l := by
  induction l with
  | nil => rfl
  | cons a l ih =>
      rw [List.map_cons, h a (List.mem_cons_self a l),
        ih (fun c hc => h c (List.mem_cons_of_mem a hc))]

theorem pyStrip_fixed {s : String} (h : ∀ c ∈ s.data, isWS c = false) :
    pyStrip s = s := by
  unfold pyStrip
  rw [dropWhile_eq_self_of_none h,
    dropWhile_eq_self_of_none (fun c hc => h c (List.mem_reverse.1 hc)),
    List.reverse_reverse]

theorem pyUpper_fixed {s : String} (h : ∀ c ∈ s.data, Char.toUpper c = c) :
    pyUpper s = s := by
  unfold pyUpper
  rw [map_eq_self_of_fixed h]

theorem takeWhile_append_all {p : Char → Bool} {l1 l2 : List Char}
    (h : ∀ c ∈ l1, p c = true) : (l1 ++ l2).takeWhile p = l1 ++ l2.takeWhile p := by
  induction l1 with
  | nil => rfl
  | cons a l ih =>
      rw [List.cons_append, List.takeWhile_cons, h a (List.mem_cons_self a l),
        ih (fun c hc => h c (List.mem_cons_of_mem a hc))]
      simp

theorem dropWhile_append_all {p : Char → Bool} {l1 l2 : List Char}
    (h : ∀ c ∈ l1, p c = true) : (l1 ++ l2).dropWhile p = l2.dropWhile p := by
  induction l1 with
  | nil => rfl
  | cons a l ih =>
      rw [List.cons_append, List.dropWhile_cons, h a (List.mem_cons_self a l)]
      simp only [if_pos rfl]
      exact ih (fun c hc => h c (List.mem_cons_of_mem a hc))

theorem takeWhile_all {p : Char → Bool} {l : List Char}
    (h : ∀ c ∈ l, p c = true) : l.takeWhile p = l := by
  induction l with
  | nil => rfl
  | cons a l ih =>
      rw [List.takeWhile_cons, h a (List.mem_cons_self a l),
        ih (fun c hc => h c (List.mem_cons_of_mem a hc))]
      simp

theorem takeWhile_nil_of_head {p : Char → Bool} {l : List Char}
    (h : ∀ c, l.head? = some c → p c = false) : l.takeWhile p = [] := by
  cases l with
  | nil => rfl
  | cons a l =>
      rw [List.takeWhile_cons, h a rfl]
      simp

theorem matchLettersDigits_exact {L D : String}
    (hL : L.data ≠ []) (hD : D.data ≠ [])
    (hLa : ∀ c ∈ L.data, isAZ c = true) (hDd : ∀ c ∈ D.data, isDig c = true) :
    matchLettersDigits (L ++ D) = some (L, D) := by
  have hDaz : D.data.takeWhile isAZ = [] := by
    apply takeWhile_nil_of_head
    intro c hc
    exact isDig_not_az (hDd c (List.mem_of_mem_head? hc))
  unfold matchLettersDigits
  rw [String.data_append, takeWhile_append_all hLa, dropWhile_append_all hLa, hDaz,
    List.append_nil,
    dropWhile_eq_self_of_none (fun c hc => isDig_not_az (hDd c hc)),
    takeWhile_all hDd]
  rw [if_neg (by simp [hL, hD])]

theorem convert_of_no_match {room : String} {m : String → Option Int}
    (h : matchLettersDigits (pyUpper (pyStrip room)) = none) :
    convert_room_letter_to_number room m = room := by
  unfold convert_room_letter_to_number
  rw [h]

theorem convert_fixed_letters_digits {L D : String} {m : String → Option Int}
    (hL : L.data ≠ []) (hD : D.data ≠ [])
    (hLa : ∀ c ∈ L.data, isAZ c = true) (hDd : ∀ c ∈ D.data, isDig c = true)
    (hm : m L = none) : convert_room_letter_to_number (L ++ D) m = L ++ D := by
  have hws : ∀ c ∈ (L ++ D).data, isWS c = false := by
    rw [String.data_append]
    intro c hc
    rcases List.mem_append.1 hc with hc | hc
    · exact isAZ_not_ws (hLa c hc)
    · exact isDig_not_ws (hDd c hc)
  have hup : ∀ c ∈ (L ++ D).data, Char.toUpper c = c := by
    rw [String.data_append]
    intro c hc
    rcases List.mem_append.1 hc with hc | hc
    · exact isAZ_toUpper (hLa c hc)
    · exact isDig_toUpper (hDd c hc)
  unfold convert_room_letter_to_number
  rw [pyStrip_fixed hws, pyUpper_fixed hup, matchLettersDigits_exact hL hD hLa hDd]
  simp [hm]

theorem convert_of_head_not_az {s : String} {m : String → Option Int}
    (hws : ∀ c ∈ s.data, isWS c = false) (hup : ∀ c ∈ s.data, Char.toUpper c = c)
    (hhd : ∀ c, s.data.head? = some c → isAZ c = false) :
    convert_room_letter_to_number s m = s := by
  apply convert_of_no_match
  rw [pyStrip_fixed hws, pyUpper_fixed hup]
  unfold matchLettersDigits
  rw [takeWhile_nil_of_head hhd]
  simp

/-! ### C2: slot sequence length and uniqueness -/

/-- C2 (counterexample): the claim says `generate_schedule_slots x` always
returns 55 distinct slots covering 5 days × 11 periods.  At total credit 2 it
returns 50 slots, and the period-5 slot `"M5"` never occurs. -/
theorem slot_sequence_not_55 :
    (generate_schedule_slots 2).length ≠ 55 ∧ "M5" ∉ generate_schedule_slots 2 := by
  decide

/-- C2 (amended): for every total credit `x`, `generate_schedule_slots x`
returns exactly 50 distinct slots — the 5 days times the 10 periods
1,2,3,4,6,7,8,9,10,11 — with no slot appearing twice; period 5 is never
emitted, so the length is 50, not 55. -/
theorem slot_sequence_length_and_uniqueness (x : ℚ) :
    (generate_schedule_slots x).length = 50 ∧ (generate_schedule_slots x).Nodup ∧
    (∀ sl ∈ generate_schedule_slots x, slotSpec sl) ∧
    (∀ d ∈ dayCodes, ∀ p ∈ ([1, 2, 3, 4, 6, 7, 8, 9, 10, 11] : List Nat),
      d ++ toString p ∈ generate_schedule_slots x) := by
  unfold generate_schedule_slots
  by_cases hx : x ≤ 18
  · rw [if_pos hx]
    decide
  · rw [if_neg hx]
    decide

/-! ### C5: task generation count -/

theorem count_flatMap_replicate (subs : List Task) (s : Task) :
    List.count s (subs.flatMap (fun x => List.replicate (taskCount x) x))
      = subs.count s * taskCount s := by
  induction subs with
  | nil => simp
  | cons x xs ih =>
      rw [List.flatMap_cons, List.count_append, ih, List.count_cons, List.count_replicate]
      by_cases hx : x = s
      · subst hx
        simp [Nat.add_mul, Nat.add_comm]
      · simp [hx]

/-- C5 (confirmed): a subject with non-negative credit `c` generates exactly
`max 1 ⌊c * 2⌋` tasks, each a value copy of the subject: in `build_tasks` the
number of copies of a subject `s` is its multiplicity in the input times
`max 1 ⌊credit * 2⌋`, and every generated task is one of the input subjects. -/
theorem task_generation_count (subs : List Task) (s : Task) (h : 0 ≤ s.credit) :
    List.count s (build_tasks subs) = subs.count s * (max 1 ⌊s.credit * 2⌋).toNat ∧
    ∀ t ∈ build_tasks subs, t ∈ subs := by
  have hfloor : taskCount s = (max 1 ⌊s.credit * 2⌋).toNat := by
    unfold taskCount pyInt
    rw [if_pos (mul_nonneg h (by norm_num))]
  constructor
  · rw [build_tasks, (List.mergeSort_perm _ buildTasksLe).count_eq, count_flatMap_replicate,
      hfloor]
  · intro t ht
    rw [build_tasks, List.mem_mergeSort] at ht
    obtain ⟨x, hx, ht⟩ := List.mem_flatMap.1 ht
    rw [List.eq_of_mem_replicate ht]
    exact hx

/-- Witness for C5: a subject with credit 3/2 (so `max 1 ⌊3⌋ = 3` copies),
applying `task_generation_count` with its non-negativity hypothesis
discharged at this concrete subject. -/
theorem task_generation_count_witness :
    List.count (⟨"M101", 3/2, "T1", 5, "G1", ["A1"]⟩ : Task)
        (build_tasks [⟨"M101", 3/2, "T1", 5, "G1", ["A1"]⟩])
      = [(⟨"M101", 3/2, "T1", 5, "G1", ["A1"]⟩ : Task)].count
            ⟨"M101", 3/2, "T1", 5, "G1", ["A1"]⟩
          * (max 1 ⌊(3/2 : ℚ) * 2⌋).toNat ∧
    (0 : ℚ) ≤ 3/2 :=
  ⟨(task_generation_count [⟨"M101", 3/2, "T1", 5, "G1", ["A1"]⟩]
      ⟨"M101", 3/2, "T1", 5, "G1", ["A1"]⟩ (by norm_num)).1, by norm_num⟩

/-! ### C9: idempotent relabeling -/

/-- C9 (confirmed): when the mapping's codomain is disjoint from
building-prefix syntax — rendered mapping values contain no whitespace, no
character changed by uppercasing, and no `A`-`Z` character — the relabeling
is idempotent: converting an already-converted room label changes nothing. -/
theorem convertRoomLabel_idempotent (r : String) (m : String → Option Int)
    (hm : ∀ L v, m L = some v → ∀ c ∈ (toString v).data,
        isWS c = false ∧ Char.toUpper c = c ∧ isAZ c = false) :
    convert_room_letter_to_number (convert_room_letter_to_number r m) m
      = convert_room_letter_to_number r m := by
  cases h : matchLettersDigits (pyUpper (pyStrip r)) with
  | none => rw [convert_of_no_match h, convert_of_no_match h]
  | some LD =>
      obtain ⟨L, D⟩ := LD
      have h' := h
      unfold matchLettersDigits at h'
      by_cases hc : ((pyUpper (pyStrip r)).data.takeWhile isAZ).isEmpty
          || (((pyUpper (pyStrip r)).data.dropWhile isAZ).takeWhile isDig).isEmpty
      · rw [if_pos hc] at h'
        exact absurd h' (by simp)
      · rw [if_neg hc] at h'
        obtain ⟨hL, hD⟩ := Prod.mk.inj (Option.some.inj h')
        have hLa : ∀ c ∈ L.data, isAZ c = true := by
          intro c hcL
          rw [← hL] at hcL
          exact List.mem_takeWhile_imp hcL
        have hDd : ∀ c ∈ D.data, isDig c = true := by
          intro c hcD
          rw [← hD] at hcD
          exact List.mem_takeWhile_imp hcD
        have hLne : L.data ≠ [] := by
          rw [← hL]
          intro hnil
          apply hc
          rw [show ((pyUpper (pyStrip r)).data.takeWhile isAZ) = [] from hnil]
          simp
        have hDne : D.data ≠ [] := by
          rw [← hD]
          intro hnil
          apply hc
          rw [show (((pyUpper (pyStrip r)).data.dropWhile isAZ).takeWhile isDig) = [] from hnil]
          simp
        have hconv : convert_room_letter_to_number r m =
            (match m L with | some v => toString v | none => L) ++ D := by
          unfold convert_room_letter_to_number
          rw [h]
        cases hmL : m L with
        | none =>
            rw [hconv, hmL]
            exact convert_fixed_letters_digits hLne hDne hLa hDd hmL
        | some v =>
            rw [hconv, hmL]
            have hv := hm L v hmL
            apply convert_of_head_not_az
            · rw [String.data_append]
              intro c hcm
              rcases List.mem_append.1 hcm with hcm | hcm
              · exact (hv c hcm).1
              · exact isDig_not_ws (hDd c hcm)
            · rw [String.data_append]
              intro c hcm
              rcases List.mem_append.1 hcm with hcm | hcm
              · exact (hv c hcm).2.1
              · exact isDig_toUpper (hDd c hcm)
            · intro c hcm
              rw [String.data_append] at hcm
              cases hvd : (toString v).data with
              | nil =>
                  rw [hvd, List.nil_append] at hcm
                  exact isDig_not_az (hDd c (List.mem_of_mem_head? hcm))
              | cons a l =>
                  rw [hvd, List.cons_append, List.head?_cons, Option.some.injEq] at hcm
                  exact hcm ▸ (hv a (hvd ▸ List.mem_cons_self a l)).2.2

/-- Witness for C9 at room "A101" and the mapping sending prefix "A" to 5,
whose rendered codomain value "5" satisfies the disjointness hypothesis. -/
theorem convertRoomLabel_idempotent_witness :
    convert_room_letter_to_number
        (convert_room_letter_to_number "A101" (fun L => if L = "A" then some 5 else none))
        (fun L => if L = "A" then some 5 else none)
      = convert_room_letter_to_number "A101" (fun L => if L = "A" then some 5 else none) :=
  convertRoomLabel_idempotent "A101" (fun L => if L = "A" then some 5 else none) (by
    intro L v h c hcm
    have h' : (if L = "A" then some (5 : Int) else none) = some v := h
    by_cases hL : L = "A"
    · rw [if_pos hL] at h'
      obtain rfl : (5 : Int) = v := Option.some.inj h'
      rw [show (toString (5 : Int)).data = ['5'] from by decide] at hcm
      simp at hcm
      subst hcm
      decide
    · rw [if_neg hL] at h'
      exact absurd h' (by simp))

/-! ### C6: room-label conversion pass-through -/

/-- C6 (counterexample): the claim says a room whose alphabetic prefix is not
a mapping key passes through unchanged.  The room `"a1"` has an alphabetic
prefix and a numeric suffix and its prefix is not a key of the empty mapping,
yet the function returns `"A1"`, not the input unchanged (it uppercases and
re-assembles the label). -/
theorem convert_passthrough_counterexample :
    convert_room_letter_to_number "a1" (fun _ => none) = "A1" ∧
    convert_room_letter_to_number "a1" (fun _ => none) ≠ "a1" := by
  decide

/-! ### Lemmas about the room scan and the slot scan -/

theorem findFree_some {used : Finset String} {rooms : List String} {ρ : String}
    (h : (findFree used rooms).2 = some ρ) : ρ ∈ rooms ∧ ρ ∉ used := by
  induction rooms with
  | nil => simp [findFree] at h
  | cons r rs ih =>
      by_cases hr : r ∈ used
      · rw [show findFree used (r :: rs) = (true, (findFree used rs).2) from by
          simp [findFree, hr]] at h
        obtain ⟨h1, h2⟩ := ih h
        exact ⟨List.mem_cons_of_mem _ h1, h2⟩
      · rw [show findFree used (r :: rs) = (false, some r) from by simp [findFree, hr]] at h
        obtain rfl : r = ρ := Option.some.inj h
        exact ⟨List.mem_cons_self _ _, hr⟩

theorem scanTasks_nil {ts used sl tr rc} :
    scanTasks ts used sl [] tr rc = ⟨none, tr, rc⟩ := rfl

theorem scanTasks_cons_occupied {ts : String → String → Option String} {used : Finset String}
    {sl : String} {t : Task} {rest : List Task} {tr : Finset String} {rc : Bool} {r : String}
    (h : ts t.teacher sl = some r) :
    scanTasks ts used sl (t :: rest) tr rc = scanTasks ts used sl rest (insert r tr) rc := by
  rw [scanTasks, h]

theorem scanTasks_cons_free_found {ts : String → String → Option String} {used : Finset String}
    {sl : String} {t : Task} {rest : List Task} {tr : Finset String} {rc c : Bool} {ρ : String}
    (h : ts t.teacher sl = none) (hf : findFree used t.actual_room = (c, some ρ)) :
    scanTasks ts used sl (t :: rest) tr rc = ⟨some (t, ρ), tr, rc || c⟩ := by
  rw [scanTasks, h, hf]

theorem scanTasks_cons_free_none {ts : String → String → Option String} {used : Finset String}
    {sl : String} {t : Task} {rest : List Task} {tr : Finset String} {rc c : Bool}
    (h : ts t.teacher sl = none) (hf : findFree used t.actual_room = (c, none)) :
    scanTasks ts used sl (t :: rest) tr rc = scanTasks ts used sl rest tr (rc || c) := by
  rw [scanTasks, h, hf]

theorem scanTasks_found_sound {ts : String → String → Option String} {used : Finset String}
    {sl : String} {pool : List Task} {tr : Finset String} {rc : Bool} {t : Task} {ρ : String}
    (h : (scanTasks ts used sl pool tr rc).found = some (t, ρ)) :
    t ∈ pool ∧ ρ ∈ t.actual_room ∧ ts t.teacher sl = none ∧ ρ ∉ used := by
  induction pool generalizing tr rc with
  | nil => simp [scanTasks_nil] at h
  | cons t' rest ih =>
      cases hts : ts t'.teacher sl with
      | some r =>
          rw [scanTasks_cons_occupied hts] at h
          obtain ⟨h1, h2⟩ := ih h
          exact ⟨List.mem_cons_of_mem _ h1, h2⟩
      | none =>
          rcases hff : findFree used t'.actual_room with ⟨c, f⟩
          cases f with
          | some ρ' =>
              rw [scanTasks_cons_free_found hts hff] at h
              have hfs : ρ' ∈ t'.actual_room ∧ ρ' ∉ used :=
                findFree_some (show (findFree used t'.actual_room).2 = some ρ' from by rw [hff])
              obtain ⟨rfl, rfl⟩ := Prod.mk.inj (Option.some.inj h)
              exact ⟨List.mem_cons_self _ _, hfs.1, hts, hfs.2⟩
          | none =>
              rw [scanTasks_cons_free_none hts hff] at h
              obtain ⟨h1, h2⟩ := ih h
              exact ⟨List.mem_cons_of_mem _ h1, h2⟩

theorem scanTasks_tr_mono {ts : String → String → Option String} {used : Finset String}
    {sl : String} {pool : List Task} {tr : Finset String} {rc : Bool} :
    tr ⊆ (scanTasks ts used sl pool tr rc).tr_rooms := by
  induction pool generalizing tr rc with
  | nil => rw [scanTasks_nil]
  | cons t' rest ih =>
      cases hts : ts t'.teacher sl with
      | some r =>
          rw [scanTasks_cons_occupied hts]
          exact subset_trans (Finset.subset_insert r tr) ih
      | none =>
          rcases hff : findFree used t'.actual_room with ⟨c, f⟩
          cases f with
          | some ρ' => rw [scanTasks_cons_free_found hts hff]
          | none =>
              rw [scanTasks_cons_free_none hts hff]
              exact ih

theorem scanTasks_clash {ts : String → String → Option String} {used : Finset String}
    {sl : String} {pool : List Task} {tr : Finset String} {rc : Bool} {t : Task} {r : String}
    (htm : t ∈ pool) (hocc : ts t.teacher sl = some r) :
    r ∈ (scanTasks ts used sl pool tr rc).tr_rooms ∨
      ∃ t' ρ', (scanTasks ts used sl pool tr rc).found = some (t', ρ') := by
  induction pool generalizing tr rc with
  | nil => cases htm
  | cons t' rest ih =>
      rcases List.mem_cons.1 htm with rfl | hmem
      · rw [scanTasks_cons_occupied hocc]
        exact Or.inl (scanTasks_tr_mono (Finset.mem_insert_self r tr))
      · cases hts : ts t'.teacher sl with
        | some r' =>
            rw [scanTasks_cons_occupied hts]
            exact ih hmem
        | none =>
            rcases hff : findFree used t'.actual_room with ⟨c, f⟩
            cases f with
            | some ρ' =>
                rw [scanTasks_cons_free_found hts hff]
                exact Or.inr ⟨t', ρ', rfl⟩
            | none =>
                rw [scanTasks_cons_free_none hts hff]
                exact ih hmem

/-! ### Equation lemmas for one slot iteration -/

theorem setCell_same (T : Table) (d : String) (p : Nat) (c : Cell) :
    setCell T d p c d p = c := by
  simp [setCell]

theorem setCell_other {d p d' p'} (T : Table) (c : Cell) (h : ¬(d' = d ∧ p' = p)) :
    setCell T d p c d' p' = T d' p' := by
  simp only [setCell]
  rw [if_neg h]

theorem processSlot_no_parse {m st sl} (h : matchLettersDigits sl = none) :
    processSlot m st sl = st := by
  unfold processSlot
  rw [h]

theorem processSlot_filled {m st sl d pstr} (h : matchLettersDigits sl = some (d, pstr))
    (hfull : st.table (day_map d) (natOfDigits pstr) ≠ Cell.str "") :
    processSlot m st sl = st := by
  unfold processSlot
  rw [h]
  simp only []
  rw [if_pos hfull]

theorem processSlot_placed {m st sl d pstr t ρ} (h : matchLettersDigits sl = some (d, pstr))
    (hopen : st.table (day_map d) (natOfDigits pstr) = Cell.str "")
    (hfound : (scanTasks st.sched.teacher_slots (st.sched.slots_used sl) sl
        st.pool ∅ false).found = some (t, ρ)) :
    processSlot m st sl =
      { table := setCell st.table (day_map d) (natOfDigits pstr)
          (Cell.placed t.code t.teacher (convert_room_letter_to_number ρ m))
        pool := st.pool.erase t
        sched :=
          { slots_used := fun sl' =>
              if sl' = sl then insert t.teacher (insert ρ (st.sched.slots_used sl'))
              else st.sched.slots_used sl'
            teacher_slots := fun te' sl' =>
              if te' = t.teacher ∧ sl' = sl then some ρ
              else st.sched.teacher_slots te' sl' } } := by
  unfold processSlot
  rw [h]
  simp only []
  rw [if_neg (by simp [hopen]), hfound]

theorem processSlot_unplaced {m st sl d pstr} (h : matchLettersDigits sl = some (d, pstr))
    (hopen : st.table (day_map d) (natOfDigits pstr) = Cell.str "")
    (hfound : (scanTasks st.sched.teacher_slots (st.sched.slots_used sl) sl
        st.pool ∅ false).found = none) :
    processSlot m st sl =
      { st with
         table := setCell st.table (day_map d) (natOfDigits pstr)
           (Cell.str (fmt
             (scanTasks st.sched.teacher_slots (st.sched.slots_used sl) sl
               st.pool ∅ false).tr_rooms
             (scanTasks st.sched.teacher_slots (st.sched.slots_used sl) sl
               st.pool ∅ false).room_conf
             st.pool.length)) } := by
  unfold processSlot
  rw [h]
  simp only []
  rw [if_neg (by simp [hopen]), hfound]

/-! ### The relabeling map has no effect on scheduling decisions -/

theorem cellSync_refl (c : Cell) : cellSync c c := by
  cases c with
  | str a => exact rfl
  | placed a b c => exact ⟨rfl, rfl⟩

theorem cellSync_empty_iff {c c' : Cell} (h : cellSync c c') :
    c = Cell.str "" ↔ c' = Cell.str "" := by
  cases c with
  | str a =>
      cases c' with
      | str b => rw [show a = b from h]
      | placed x y z => cases h
  | placed x y z =>
      cases c' with
      | str b => cases h
      | placed x' y' z' => simp

theorem processSlot_sync {m m' : String → Option Int} {st st' : LoopState}
    (hT : tableSync st.table st'.table) (hp : st.pool = st'.pool)
    (hs : st.sched = st'.sched) (sl : String) :
    tableSync (processSlot m st sl).table (processSlot m' st' sl).table ∧
    (processSlot m st sl).pool = (processSlot m' st' sl).pool ∧
    (processSlot m st sl).sched = (processSlot m' st' sl).sched := by
  cases hmatch : matchLettersDigits sl with
  | none =>
      rw [processSlot_no_parse hmatch, processSlot_no_parse hmatch]
      exact ⟨hT, hp, hs⟩
  | some dp =>
      obtain ⟨d, pstr⟩ := dp
      have hscan : scanTasks st.sched.teacher_slots (st.sched.slots_used sl) sl st.pool ∅ false
          = scanTasks st'.sched.teacher_slots (st'.sched.slots_used sl) sl st'.pool ∅ false := by
        rw [hp, hs]
      by_cases hopen : st.table (day_map d) (natOfDigits pstr) = Cell.str ""
      · have hopen' : st'.table (day_map d) (natOfDigits pstr) = Cell.str "" :=
          (cellSync_empty_iff (hT _ _)).1 hopen
        cases hfound : (scanTasks st.sched.teacher_slots (st.sched.slots_used sl) sl
            st.pool ∅ false).found with
        | some tρ =>
            obtain ⟨t, ρ⟩ := tρ
            rw [processSlot_placed hmatch hopen hfound,
              processSlot_placed hmatch hopen' (by rw [← hscan]; exact hfound)]
            refine ⟨?_, by dsimp only; rw [hp], by dsimp only; rw [hs]⟩
            intro dd pp
            dsimp only
            by_cases hq : dd = day_map d ∧ pp = natOfDigits pstr
            · obtain ⟨rfl, rfl⟩ := hq
              rw [setCell_same, setCell_same]
              exact ⟨rfl, rfl⟩
            · rw [setCell_other _ _ hq, setCell_other _ _ hq]
              exact hT dd pp
        | none =>
            rw [processSlot_unplaced hmatch hopen hfound,
              processSlot_unplaced hmatch hopen' (by rw [← hscan]; exact hfound)]
            refine ⟨?_, hp, hs⟩
            intro dd pp
            dsimp only
            by_cases hq : dd = day_map d ∧ pp = natOfDigits pstr
            · obtain ⟨rfl, rfl⟩ := hq
              rw [setCell_same, setCell_same, ← hscan, ← hp]
              exact rfl
            · rw [setCell_other _ _ hq, setCell_other _ _ hq]
              exact hT dd pp
      · have hopen' : st'.table (day_map d) (natOfDigits pstr) ≠ Cell.str "" :=
          fun hcon => hopen ((cellSync_empty_iff (hT _ _)).2 hcon)
        rw [processSlot_filled hmatch hopen, processSlot_filled hmatch hopen']
        exact ⟨hT, hp, hs⟩

theorem foldl_processSlot_sync {m m' : String → Option Int} (slots : List String)
    {st st' : LoopState} (hT : tableSync st.table st'.table) (hp : st.pool = st'.pool)
    (hs : st.sched = st'.sched) :
    tableSync (slots.foldl (processSlot m) st).table (slots.foldl (processSlot m') st').table ∧
    (slots.foldl (processSlot m) st).pool = (slots.foldl (processSlot m') st').pool ∧
    (slots.foldl (processSlot m) st).sched = (slots.foldl (processSlot m') st').sched := by
  induction slots generalizing st st' with
  | nil => exact ⟨hT, hp, hs⟩
  | cons sl rest ih =>
      obtain ⟨hT1, hp1, hs1⟩ := processSlot_sync hT hp hs sl
      exact ih hT1 hp1 hs1

theorem schedule_room_mapping_indep (group : String) (subjects : List Task)
    (σ : SchedState) (locks : List Lock) (m m' : String → Option Int) :
    (schedule_room group subjects σ locks m).1.2
      = (schedule_room group subjects σ locks m').1.2 ∧
    (schedule_room group subjects σ locks m).2
      = (schedule_room group subjects σ locks m').2 := by
  unfold schedule_room
  have h := @foldl_processSlot_sync m m'
    (generate_schedule_slots (totalCredit group subjects))
    ⟨(applyLocks group locks (fun _ _ => Cell.str "") σ).1,
      initialPool group subjects, (applyLocks group locks (fun _ _ => Cell.str "") σ).2⟩
    ⟨(applyLocks group locks (fun _ _ => Cell.str "") σ).1,
      initialPool group subjects, (applyLocks group locks (fun _ _ => Cell.str "") σ).2⟩
    (fun d p => cellSync_refl _) rfl rfl
  exact ⟨h.2.1, h.2.2⟩

/-- C6 (corrected, amended): the conversion returns the input unchanged when
the normalized input has no letters-then-digits shape; an input that is
already stripped, uppercase, and exactly an `A`-`Z` block followed by a digit
block with a prefix absent from the mapping passes through unchanged (other
unknown-prefix inputs are normalized, as the counterexample shows); and the
mapping has no effect on scheduling decisions: the leftover tasks and the
shared conflict state of `schedule_room` are identical for any two mappings. -/
theorem convert_passthrough_amended :
    (∀ room m, matchLettersDigits (pyUpper (pyStrip room)) = none →
        convert_room_letter_to_number room m = room) ∧
    (∀ L D m, L.data ≠ [] → D.data ≠ [] → (∀ c ∈ L.data, isAZ c = true) →
        (∀ c ∈ D.data, isDig c = true) → m L = none →
        convert_room_letter_to_number (L ++ D) m = L ++ D) ∧
    (∀ group subjects σ locks m m',
        (schedule_room group subjects σ locks m).1.2
          = (schedule_room group subjects σ locks m').1.2 ∧
        (schedule_room group subjects σ locks m).2
          = (schedule_room group subjects σ locks m').2) :=
  ⟨fun _ _ h => convert_of_no_match h,
   fun _ _ _ hL hD hLa hDd hm => convert_fixed_letters_digits hL hD hLa hDd hm,
   fun g su σ lo m m' => schedule_room_mapping_indep g su σ lo m m'⟩

/-- Witness for C6 (amended), applying the three parts at concrete inputs:
a Thai room label with no letter prefix passes through, a canonical unknown
`B7` passes through, and a two-group run with two different mappings returns
the same leftovers and state. -/
theorem convert_passthrough_amended_witness :
    convert_room_letter_to_number "ม.1/1" (fun _ => none) = "ม.1/1" ∧
    convert_room_letter_to_number ("B" ++ "7") (fun _ => none) = "B" ++ "7" ∧
    (schedule_room "G1" [⟨"C1", 1, "T1", 1, "G1", ["A1"]⟩] initialState []
        (fun _ => none)).1.2
      = (schedule_room "G1" [⟨"C1", 1, "T1", 1, "G1", ["A1"]⟩] initialState []
        (fun L => if L = "A" then some 9 else none)).1.2 :=
  ⟨convert_passthrough_amended.1 "ม.1/1" (fun _ => none) (by decide),
   convert_passthrough_amended.2.1 "B" "7" (fun _ => none) (by decide) (by decide)
     (by decide) (by decide) rfl,
   (convert_passthrough_amended.2.2 "G1" [⟨"C1", 1, "T1", 1, "G1", ["A1"]⟩] initialState []
     (fun _ => none) (fun L => if L = "A" then some 9 else none)).1⟩

/-! ### C8: diagnostic labeling -/

theorem fmt_eq_noSubject_iff (tr : Finset String) (rc : Bool) (n : Nat) :
    fmt tr rc n = "ไม่มีวิชา" ↔ n = 0 := by
  constructor
  · intro h
    by_contra hn
    rw [fmt, if_neg hn] at h
    by_cases hp : fmtParts tr rc = []
    · rw [if_pos hp] at h
      exact absurd h (by decide)
    · rw [if_neg hp] at h
      have h2 := congrArg String.data h
      rw [String.data_append, String.data_append] at h2
      rw [show "ไม่ได้(".data = ['ไ','ม','่','ไ','ด','้','('] from by decide] at h2
      rw [show "ไม่มีวิชา".data = ['ไ','ม','่','ม','ี','ว','ิ','ช','า'] from by decide] at h2
      simp at h2
  · intro h
    subst h
    rw [fmt, if_pos rfl]

/-- C8 (confirmed): at a parsed slot whose cell is open and where the scan
places no task, the slot step writes exactly the diagnostic label built by
`fmt` from the flags the scan raised — the set of rooms that caused a teacher
clash and the room-full flag — together with the pool size; the label is the
no-subject label `"ไม่มีวิชา"` iff the candidate pool is empty at that point;
the pool and the shared state are unchanged, so scheduling continues for the
remaining slots. -/
theorem unplaceable_diagnostic (m : String → Option Int) (st : LoopState) (sl d pstr : String)
    (hp : matchLettersDigits sl = some (d, pstr))
    (hopen : st.table (day_map d) (natOfDigits pstr) = Cell.str "")
    (hnone : (scanTasks st.sched.teacher_slots (st.sched.slots_used sl) sl
        st.pool ∅ false).found = none) :
    (processSlot m st sl).table (day_map d) (natOfDigits pstr)
      = Cell.str (fmt
          (scanTasks st.sched.teacher_slots (st.sched.slots_used sl) sl
            st.pool ∅ false).tr_rooms
          (scanTasks st.sched.teacher_slots (st.sched.slots_used sl) sl
            st.pool ∅ false).room_conf
          st.pool.length) ∧
    (fmt
        (scanTasks st.sched.teacher_slots (st.sched.slots_used sl) sl
          st.pool ∅ false).tr_rooms
        (scanTasks st.sched.teacher_slots (st.sched.slots_used sl) sl
          st.pool ∅ false).room_conf
        st.pool.length = "ไม่มีวิชา" ↔ st.pool = []) ∧
    (processSlot m st sl).pool = st.pool ∧ (processSlot m st sl).sched = st.sched := by
  rw [processSlot_unplaced hp hopen hnone]
  refine ⟨by dsimp only; rw [setCell_same], ?_, rfl, rfl⟩
  rw [fmt_eq_noSubject_iff]
  exact List.length_eq_zero

/-- Witness for C8: an empty pool at the open slot `"M2"` receives exactly
the no-subject label, applying `unplaceable_diagnostic` at a concrete state
with its three hypotheses discharged by computation. -/
theorem unplaceable_diagnostic_witness :
    (processSlot (fun _ => none)
        ⟨fun _ _ => Cell.str "", [], initialState⟩ "M2").table (day_map "M") (natOfDigits "2")
      = Cell.str (fmt ∅ false 0) ∧
    (fmt ∅ false 0 = "ไม่มีวิชา" ↔ ([] : List Task) = []) :=
  have h := unplaceable_diagnostic (fun _ => none)
    ⟨fun _ _ => Cell.str "", [], initialState⟩ "M2" "M" "2" (by decide) rfl rfl
  ⟨h.1, h.2.1⟩

/-! ### C7: a teacher clash skips the task but keeps it eligible -/

/-- C7 (confirmed): during the scan of a slot, a candidate task whose teacher
already occupies the slot is never the placed task; the task survives the
slot step in the candidate pool (so it stays eligible for every later slot of
the fold); and whenever the scan places nothing, the conflicting room of its
teacher is recorded in the diagnostic set `tr_rooms`. -/
theorem teacher_clash_skip (m : String → Option Int) (st : LoopState) (sl : String)
    (t : Task) (r : String) (htm : t ∈ st.pool)
    (hocc : st.sched.teacher_slots t.teacher sl = some r) :
    t ∈ (processSlot m st sl).pool ∧
    (∀ ρ, (scanTasks st.sched.teacher_slots (st.sched.slots_used sl) sl
        st.pool ∅ false).found ≠ some (t, ρ)) ∧
    ((scanTasks st.sched.teacher_slots (st.sched.slots_used sl) sl
        st.pool ∅ false).found = none →
      r ∈ (scanTasks st.sched.teacher_slots (st.sched.slots_used sl) sl
        st.pool ∅ false).tr_rooms) := by
  have hnot : ∀ ρ, (scanTasks st.sched.teacher_slots (st.sched.slots_used sl) sl
      st.pool ∅ false).found ≠ some (t, ρ) := by
    intro ρ h
    have hs := (scanTasks_found_sound h).2.2.1
    rw [hocc] at hs
    cases hs
  refine ⟨?_, hnot, ?_⟩
  · cases hmatch : matchLettersDigits sl with
    | none =>
        rw [processSlot_no_parse hmatch]
        exact htm
    | some dp =>
        obtain ⟨d, pstr⟩ := dp
        by_cases hopen : st.table (day_map d) (natOfDigits pstr) = Cell.str ""
        · cases hfound : (scanTasks st.sched.teacher_slots (st.sched.slots_used sl) sl
              st.pool ∅ false).found with
          | some tρ =>
              obtain ⟨t', ρ'⟩ := tρ
              rw [processSlot_placed hmatch hopen hfound]
              dsimp only
              have ht' : t ≠ t' := fun he => hnot ρ' (he ▸ hfound)
              exact (List.mem_erase_of_ne ht').2 htm
          | none =>
              rw [processSlot_unplaced hmatch hopen hfound]
              exact htm
        · rw [processSlot_filled hmatch hopen]
          exact htm
  · intro hnone
    rcases scanTasks_clash htm hocc with h | ⟨t', ρ', h⟩
    · exact h
    · rw [hnone] at h
      cases h

/-- Witness for C7 at a one-task pool whose teacher `"T1"` already occupies
slot `"M2"` in room `"X"`: the task survives the slot step and the clash room
is recorded, applying `teacher_clash_skip` with both hypotheses discharged at
the concrete state. -/
theorem teacher_clash_skip_witness :
    (⟨"C1", 1, "T1", 1, "G1", ["R1"]⟩ : Task) ∈
      (processSlot (fun _ => none)
        ⟨fun _ _ => Cell.str "", [⟨"C1", 1, "T1", 1, "G1", ["R1"]⟩],
          { slots_used := fun _ => ∅,
            teacher_slots := fun te sl => if te = "T1" ∧ sl = "M2" then some "X" else none }⟩
        "M2").pool ∧
    "X" ∈ (scanTasks
        (fun te sl => if te = "T1" ∧ sl = "M2" then some "X" else none) ∅ "M2"
        [⟨"C1", 1, "T1", 1, "G1", ["R1"]⟩] ∅ false).tr_rooms :=
  have h := teacher_clash_skip (fun _ => none)
    ⟨fun _ _ => Cell.str "", [⟨"C1", 1, "T1", 1, "G1", ["R1"]⟩],
      { slots_used := fun _ => ∅,
        teacher_slots := fun te sl => if te = "T1" ∧ sl = "M2" then some "X" else none }⟩
    "M2" ⟨"C1", 1, "T1", 1, "G1", ["R1"]⟩ "X" (by decide) rfl
  ⟨h.1, h.2.2 (by decide)⟩

/-! ### C10: tasks with no acceptable room -/

set_option maxRecDepth 20000 in
unseal List.merge List.mergeSort String.ltb Rat.add Rat.mul in
/-- C10 (counterexample): the claim says a task with an empty `actual_room`
list raises neither the teacher-clash flag nor the room-full flag.  But the
teacher check runs before the room loop: with a single empty-room task whose
teacher `"T1"` already occupies `"M2"` in room `"R9"`, the slot receives a
teacher-clash diagnostic naming `"R9"` — the flag was raised by that task. -/
theorem empty_room_task_flag_counterexample :
    (processSlot (fun _ => none)
        ⟨fun _ _ => Cell.str "", [⟨"C0", 1, "T1", 1, "G1", []⟩],
          { slots_used := fun _ => ∅,
            teacher_slots := fun te sl => if te = "T1" ∧ sl = "M2" then some "R9" else none }⟩
        "M2").table "Mon" 2 = Cell.str "ไม่ได้(ครูชนที่ R9R9)" ∧
    (scanTasks (fun te sl => if te = "T1" ∧ sl = "M2" then some "R9" else none) ∅ "M2"
        [⟨"C0", 1, "T1", 1, "G1", []⟩] ∅ false).tr_rooms ≠ ∅ := by
  constructor
  · decide
  · decide

theorem foldl_processSlot_keeps_task {m : String → Option Int} (slots : List String)
    (st : LoopState) (t : Task) (hrooms : t.actual_room = []) (htm : t ∈ st.pool) :
    t ∈ (slots.foldl (processSlot m) st).pool := by
  induction slots generalizing st with
  | nil => exact htm
  | cons sl rest ih =>
      apply ih
      cases hmatch : matchLettersDigits sl with
      | none =>
          rw [processSlot_no_parse hmatch]
          exact htm
      | some dp =>
          obtain ⟨d, pstr⟩ := dp
          by_cases hopen : st.table (day_map d) (natOfDigits pstr) = Cell.str ""
          · cases hfound : (scanTasks st.sched.teacher_slots (st.sched.slots_used sl) sl
                st.pool ∅ false).found with
            | some tρ =>
                obtain ⟨t', ρ'⟩ := tρ
                rw [processSlot_placed hmatch hopen hfound]
                dsimp only
                have ht' : t ≠ t' := by
                  intro he
                  have hs := (scanTasks_found_sound hfound).2.1
                  rw [← he, hrooms] at hs
                  cases hs
                exact (List.mem_erase_of_ne ht').2 htm
            | none =>
                rw [processSlot_unplaced hmatch hopen hfound]
                exact htm
          · rw [processSlot_filled hmatch hopen]
            exact htm

/-- C10 (corrected, amended): a task with an empty `actual_room` list can
never be placed by any slot scan; when its teacher is free at the slot the
scan passes over it raising no flag at all, and when its teacher is busy it
contributes exactly the teacher-clash room — so it never raises the
room-full flag, but it can raise the teacher-clash flag, which is what the
counterexample corrects; it survives every slot step, so after the full slot
sequence it always appears in `schedule_room`'s returned unplaced list. -/
theorem empty_room_task_unplaced :
    (∀ (ts : String → String → Option String) (used : Finset String) (sl : String)
        (pool : List Task) (tr : Finset String) (rc : Bool) (t : Task) (ρ : String),
        t.actual_room = [] → (scanTasks ts used sl pool tr rc).found ≠ some (t, ρ)) ∧
    (∀ (ts : String → String → Option String) (used : Finset String) (sl : String)
        (t : Task) (rest : List Task) (tr : Finset String) (rc : Bool),
        t.actual_room = [] → ts t.teacher sl = none →
        scanTasks ts used sl (t :: rest) tr rc = scanTasks ts used sl rest tr rc) ∧
    (∀ (ts : String → String → Option String) (used : Finset String) (sl : String)
        (t : Task) (rest : List Task) (tr : Finset String) (rc : Bool) (r : String),
        t.actual_room = [] → ts t.teacher sl = some r →
        scanTasks ts used sl (t :: rest) tr rc = scanTasks ts used sl rest (insert r tr) rc) ∧
    (∀ (group : String) (subjects : List Task) (σ : SchedState) (locks : List Lock)
        (m : String → Option Int) (t : Task), t.actual_room = [] →
        t ∈ initialPool group subjects →
        t ∈ (schedule_room group subjects σ locks m).1.2) := by
  refine ⟨?_, ?_, ?_, ?_⟩
  · intro ts used sl pool tr rc t ρ hrooms h
    have hs := (scanTasks_found_sound h).2.1
    rw [hrooms] at hs
    cases hs
  · intro ts used sl t rest tr rc hrooms hfree
    rw [scanTasks_cons_free_none hfree (by rw [hrooms]; rfl), Bool.or_false]
  · intro ts used sl t rest tr rc r hrooms hocc
    rw [scanTasks_cons_occupied hocc]
  · intro group subjects σ locks m t hrooms htm
    unfold schedule_room
    exact foldl_processSlot_keeps_task _ _ _ hrooms htm

set_option maxRecDepth 20000 in
unseal List.merge List.mergeSort String.ltb Rat.add Rat.mul in
/-- Witness for C10 (amended): a one-subject group whose subject has no
acceptable room; its task is generated into the pool and, after the full
run, is returned unplaced — applying `empty_room_task_unplaced` with its
hypotheses discharged by computation. -/
theorem empty_room_task_unplaced_witness :
    (⟨"C0", 1, "T1", 1, "G1", []⟩ : Task) ∈
      (schedule_room "G1" [⟨"C0", 1, "T1", 1, "G1", []⟩] initialState []
        (fun _ => none)).1.2 :=
  empty_room_task_unplaced.2.2.2 "G1" [⟨"C0", 1, "T1", 1, "G1", []⟩] initialState []
    (fun _ => none) ⟨"C0", 1, "T1", 1, "G1", []⟩ rfl (by decide)

/-! ### C3: task conservation -/

theorem gss_slotSpec (x : ℚ) : ∀ sl ∈ generate_schedule_slots x, slotSpec sl := by
  unfold generate_schedule_slots
  by_cases hx : x ≤ 18
  · rw [if_pos hx]
    decide
  · rw [if_neg hx]
    decide

theorem slot_parse {d : String} (hd : d ∈ dayCodes) {p : Nat}
    (hp : p ∈ ([1, 2, 3, 4, 6, 7, 8, 9, 10, 11] : List Nat)) :
    matchLettersDigits (d ++ toString p) = some (d, toString p)
      ∧ natOfDigits (toString p) = p ∧ (day_map d, p) ∈ gridPos := by
  simp only [dayCodes, List.mem_cons, List.not_mem_nil, or_false] at hd hp
  rcases hd with rfl | rfl | rfl | rfl | rfl <;>
    rcases hp with rfl | rfl | rfl | rfl | rfl | rfl | rfl | rfl | rfl | rfl <;> decide

theorem countPlacements_setCell {T : Table} {q : String × Nat} (hq : q ∈ gridPos) (c : Cell)
    (hold : isPlacedCell (T q.1 q.2) = false) :
    countPlacements (setCell T q.1 q.2 c) =
      countPlacements T + (if isPlacedCell c then 1 else 0) := by
  unfold countPlacements
  rw [← Finset.sum_erase_add gridPos _ hq, ← Finset.sum_erase_add gridPos
    (fun x => if isPlacedCell (T x.1 x.2) then 1 else 0) hq]
  rw [setCell_same, hold]
  have hcong : ∑ x ∈ gridPos.erase q, (if isPlacedCell (setCell T q.1 q.2 c x.1 x.2) then 1 else 0)
      = ∑ x ∈ gridPos.erase q, (if isPlacedCell (T x.1 x.2) then 1 else 0) := by
    apply Finset.sum_congr rfl
    intro x hx
    rw [setCell_other]
    intro hxq
    exact (Finset.mem_erase.1 hx).1 (Prod.ext hxq.1 hxq.2)
  rw [hcong]
  simp [Nat.add_assoc]

theorem applyLock_noPlaced {group : String} {acc : Table × SchedState} {lk : Lock}
    (h : noPlaced acc.1) : noPlaced (applyLock group acc lk).1 := by
  unfold applyLock
  by_cases hm : "ALL" ∈ lk.rooms ∨ group ∈ lk.rooms
  · rw [if_pos hm]
    cases hd : DAY_TH_TO_CODE lk.day with
    | none => exact h
    | some d =>
        intro dd pp
        dsimp only
        by_cases hq : dd = day_map d ∧ pp = lk.period
        · obtain ⟨rfl, rfl⟩ := hq
          rw [setCell_same]
          rfl
        · rw [setCell_other _ _ hq]
          exact h dd pp
  · rw [if_neg hm]
    exact h

theorem applyLocks_noPlaced (group : String) (locks : List Lock) (T : Table) (σ : SchedState)
    (h : noPlaced T) : noPlaced (applyLocks group locks T σ).1 := by
  unfold applyLocks
  suffices hgen : ∀ acc : Table × SchedState, noPlaced acc.1 →
      noPlaced (locks.foldl (applyLock group) acc).1 from hgen (T, σ) h
  induction locks with
  | nil => exact fun acc h => h
  | cons lk rest ih => exact fun acc h => ih _ (applyLock_noPlaced h)

theorem countPlacements_eq_zero {T : Table} (h : noPlaced T) : countPlacements T = 0 :=
  Finset.sum_eq_zero (fun q _ => by rw [h q.1 q.2]; rfl)

theorem initialPool_length (group : String) (subjects : List Task) :
    (initialPool group subjects).length = ((subsOf group subjects).map taskCount).sum := by
  unfold initialPool
  rw [List.length_append, List.length_append, List.length_mergeSort, List.length_mergeSort,
    List.length_mergeSort]
  rw [← List.drop_drop]
  have hsplit : ∀ l : List Task, ∀ n : Nat,
      (l.take n).length + (((l.drop n).take 10).length + ((l.drop n).drop 10).length)
        = l.length := by
    intro l n
    rw [← List.length_append, ← List.length_append, List.take_append_drop,
      List.take_append_drop]
  rw [Nat.add_assoc, hsplit]
  rw [List.length_flatMap]
  congr 1
  apply List.map_congr_left
  intro s _
  simp

theorem foldl_processSlot_count {m : String → Option Int} (slots : List String)
    (hslots : ∀ sl ∈ slots, slotSpec sl) (st : LoopState) :
    countPlacements (slots.foldl (processSlot m) st).table
        + (slots.foldl (processSlot m) st).pool.length
      = countPlacements st.table + st.pool.length := by
  induction slots generalizing st with
  | nil => rfl
  | cons sl rest ih =>
      rw [List.foldl_cons, ih (fun s hs => hslots s (List.mem_cons_of_mem _ hs))]
      obtain ⟨d, hd, p, hp, rfl⟩ := hslots sl (List.mem_cons_self _ _)
      obtain ⟨hparse, hnat, hgrid⟩ := slot_parse hd hp
      by_cases hopen : st.table (day_map d) (natOfDigits (toString p)) = Cell.str ""
      · cases hfound : (scanTasks st.sched.teacher_slots
            (st.sched.slots_used (d ++ toString p)) (d ++ toString p)
            st.pool ∅ false).found with
        | some tρ =>
            obtain ⟨t, ρ⟩ := tρ
            rw [processSlot_placed hparse hopen hfound]
            dsimp only
            have hmem : t ∈ st.pool := (scanTasks_found_sound hfound).1
            have hlen : (st.pool.erase t).length = st.pool.length - 1 :=
              List.length_erase_of_mem hmem
            have hpos : 1 ≤ st.pool.length := List.length_pos_of_mem hmem
            have hcnt : countPlacements (setCell st.table (day_map d)
                (natOfDigits (toString p)) (Cell.placed t.code t.teacher
                  (convert_room_letter_to_number ρ m)))
                = countPlacements st.table + 1 := by
              have h2 := @countPlacements_setCell st.table
                (day_map d, natOfDigits (toString p))
                (by rw [hnat]; exact hgrid)
                (Cell.placed t.code t.teacher (convert_room_letter_to_number ρ m))
                (by rw [hopen]; rfl)
              simpa using h2
            rw [hcnt, hlen]
            omega
        | none =>
            rw [processSlot_unplaced hparse hopen hfound]
            dsimp only
            have hcnt := @countPlacements_setCell st.table
              (day_map d, natOfDigits (toString p))
              (by rw [hnat]; exact hgrid)
              (Cell.str (fmt
                (scanTasks st.sched.teacher_slots
                  (st.sched.slots_used (d ++ toString p)) (d ++ toString p)
                  st.pool ∅ false).tr_rooms
                (scanTasks st.sched.teacher_slots
                  (st.sched.slots_used (d ++ toString p)) (d ++ toString p)
                  st.pool ∅ false).room_conf
                st.pool.length))
              (by rw [hopen]; rfl)
            simp only [isPlacedCell] at hcnt
            rw [hcnt]
            simp
      · rw [processSlot_filled hparse hopen]

/-- C3 (confirmed): task conservation — for every group, every subject list,
every incoming shared state, lock list and mapping, the number of placement
cells written into the returned table plus the length of the returned
leftover task list equals the total task count `T` of the group, the sum
over the group's subjects of `max 1 ⌊credit * 2⌋`-style per-subject counts. -/
theorem task_conservation (group : String) (subjects : List Task) (σ : SchedState)
    (locks : List Lock) (m : String → Option Int) :
    countPlacements (schedule_room group subjects σ locks m).1.1
        + (schedule_room group subjects σ locks m).1.2.length
      = ((subsOf group subjects).map taskCount).sum := by
  unfold schedule_room
  rw [foldl_processSlot_count _ (gss_slotSpec _)]
  rw [countPlacements_eq_zero
    (applyLocks_noPlaced group locks (fun _ _ => Cell.str "") σ (fun _ _ => rfl))]
  rw [initialPool_length]
  exact Nat.zero_add _

/-! ### C4: lock precedence -/

theorem applyLock_preserve_other (group : String) (acc : Table × SchedState) (lk : Lock)
    (dd : String) (pp : Nat) (h : ¬ lockAt group (dd, pp) lk) :
    (applyLock group acc lk).1 dd pp = acc.1 dd pp := by
  unfold applyLock
  by_cases hm : "ALL" ∈ lk.rooms ∨ group ∈ lk.rooms
  · rw [if_pos hm]
    cases hd : DAY_TH_TO_CODE lk.day with
    | none => rfl
    | some d =>
        dsimp only
        rw [setCell_other]
        intro hpq
        exact h ⟨hm, d, hd, hpq.1.symm, hpq.2.symm⟩
  · rw [if_neg hm]

theorem foldl_applyLock_preserve (group : String) (locks : List Lock)
    (acc : Table × SchedState) (dd : String) (pp : Nat)
    (h : ∀ lk ∈ locks, ¬ lockAt group (dd, pp) lk) :
    (locks.foldl (applyLock group) acc).1 dd pp = acc.1 dd pp := by
  induction locks generalizing acc with
  | nil => rfl
  | cons lk0 rest ih =>
      rw [List.foldl_cons,
        ih (applyLock group acc lk0) (fun l hl => h l (List.mem_cons_of_mem _ hl)),
        applyLock_preserve_other group acc lk0 dd pp (h lk0 (List.mem_cons_self _ _))]

theorem foldl_applyLock_writes (group : String) (locks : List Lock)
    (acc : Table × SchedState) (dd : String) (pp : Nat)
    (h : ∃ lk ∈ locks, lockAt group (dd, pp) lk) :
    ∃ lk' ∈ locks, lockAt group (dd, pp) lk' ∧
      (locks.foldl (applyLock group) acc).1 dd pp = Cell.str lk'.name := by
  induction locks generalizing acc with
  | nil =>
      obtain ⟨lk, h0, _⟩ := h
      cases h0
  | cons lk0 rest ih =>
      rw [List.foldl_cons]
      by_cases hrest : ∃ lk ∈ rest, lockAt group (dd, pp) lk
      · obtain ⟨lk', hmem, hat, heq⟩ := ih (applyLock group acc lk0) hrest
        exact ⟨lk', List.mem_cons_of_mem _ hmem, hat, heq⟩
      · have h0 : lockAt group (dd, pp) lk0 := by
          obtain ⟨lk, hm, ha⟩ := h
          rcases List.mem_cons.1 hm with rfl | hm
          · exact ha
          · exact absurd ⟨lk, hm, ha⟩ hrest
        refine ⟨lk0, List.mem_cons_self _ _, h0, ?_⟩
        push_neg at hrest
        rw [foldl_applyLock_preserve group rest (applyLock group acc lk0) dd pp hrest]
        obtain ⟨hmatch, d, hd, hpos1, hpos2⟩ := h0
        unfold applyLock
        rw [if_pos (show "ALL" ∈ lk0.rooms ∨ group ∈ lk0.rooms from hmatch), hd]
        dsimp only
        dsimp only at hpos1 hpos2
        rw [← hpos1, ← hpos2, setCell_same]

theorem processSlot_preserve_nonempty (m : String → Option Int) (st : LoopState)
    (sl : String) (dd : String) (pp : Nat) (h : st.table dd pp ≠ Cell.str "") :
    (processSlot m st sl).table dd pp = st.table dd pp := by
  cases hmatch : matchLettersDigits sl with
  | none => rw [processSlot_no_parse hmatch]
  | some dp =>
      obtain ⟨d, pstr⟩ := dp
      by_cases hopen : st.table (day_map d) (natOfDigits pstr) = Cell.str ""
      · have hpq : ¬(dd = day_map d ∧ pp = natOfDigits pstr) := by
          rintro ⟨h1, h2⟩
          rw [h1, h2] at h
          exact h hopen
        cases hfound : (scanTasks st.sched.teacher_slots (st.sched.slots_used sl) sl
            st.pool ∅ false).found with
        | some tρ =>
            obtain ⟨t, ρ⟩ := tρ
            rw [processSlot_placed hmatch hopen hfound]
            dsimp only
            rw [setCell_other _ _ hpq]
        | none =>
            rw [processSlot_unplaced hmatch hopen hfound]
            dsimp only
            rw [setCell_other _ _ hpq]
      · rw [processSlot_filled hmatch hopen]

theorem foldl_processSlot_preserve_nonempty (m : String → Option Int) (slots : List String)
    (st : LoopState) (dd : String) (pp : Nat) (h : st.table dd pp ≠ Cell.str "") :
    (slots.foldl (processSlot m) st).table dd pp = st.table dd pp := by
  induction slots generalizing st with
  | nil => rfl
  | cons sl rest ih =>
      rw [List.foldl_cons]
      have hstep := processSlot_preserve_nonempty m st sl dd pp h
      rw [ih (processSlot m st sl) (by rw [hstep]; exact h), hstep]

/-- C4 (confirmed): lock precedence — for a lock of the list that matches the
group (its room set holds the sentinel `"ALL"` or the group id) and whose
Thai day is a known day name, under the well-formedness the GUI guarantees
for every lock (non-empty name; matching locks have known days and periods
1..11, outside of which the source raises `KeyError`), the lock's grid cell
in the returned table holds the name of a matching lock of the list: lock
names are written before greedy placement, and neither a task placement nor
a diagnostic label ever overwrites such a cell. -/
theorem lock_precedence (group : String) (subjects : List Task) (σ : SchedState)
    (locks : List Lock) (m : String → Option Int) (lk : Lock) (d : String)
    (hlk : lk ∈ locks) (hmatch : lockMatches group lk)
    (hday : DAY_TH_TO_CODE lk.day = some d)
    (hnames : ∀ l ∈ locks, l.name ≠ "")
    (_hwf : ∀ l ∈ locks, lockMatches group l →
      (DAY_TH_TO_CODE l.day).isSome = true ∧ 1 ≤ l.period ∧ l.period ≤ 11) :
    ∃ lk' ∈ locks, lockAt group (day_map d, lk.period) lk' ∧
      (schedule_room group subjects σ locks m).1.1 (day_map d) lk.period
        = Cell.str lk'.name := by
  unfold schedule_room
  dsimp only
  have hex : ∃ l ∈ locks, lockAt group (day_map d, lk.period) l :=
    ⟨lk, hlk, hmatch, d, hday, rfl, rfl⟩
  obtain ⟨lk', hm', hat', heq'⟩ := foldl_applyLock_writes group locks
    ((fun _ _ => Cell.str ""), σ) (day_map d) lk.period hex
  refine ⟨lk', hm', hat', ?_⟩
  have heq2 : (applyLocks group locks (fun _ _ => Cell.str "") σ).1 (day_map d) lk.period
      = Cell.str lk'.name := heq'
  have hne : (applyLocks group locks (fun _ _ => Cell.str "") σ).1 (day_map d) lk.period
      ≠ Cell.str "" := by
    rw [heq2]
    intro hcon
    exact hnames lk' hm' (Cell.str.inj hcon)
  rw [foldl_processSlot_preserve_nonempty m _ _ (day_map d) lk.period hne]
  exact heq2

set_option maxRecDepth 40000 in
/-- Witness for C4: a single all-groups lock named "Assembly" on Monday
period 1; `lock_precedence` applies with every hypothesis discharged at the
concrete lock list. -/
theorem lock_precedence_witness :
    ∃ lk' ∈ [(⟨"Assembly", ["ALL"], "จันทร์", 1⟩ : Lock)],
      lockAt "G1" (day_map "M", 1) lk' ∧
      (schedule_room "G1" [] initialState [⟨"Assembly", ["ALL"], "จันทร์", 1⟩]
          (fun _ => none)).1.1 (day_map "M") 1 = Cell.str lk'.name :=
  lock_precedence "G1" [] initialState [⟨"Assembly", ["ALL"], "จันทร์", 1⟩]
    (fun _ => none) ⟨"Assembly", ["ALL"], "จันทร์", 1⟩ "M"
    (by decide) (by decide) (by decide) (by decide) (by decide)

/-! ### C1: no global double-booking -/

theorem stateLE_refl (σ : SchedState) : stateLE σ σ :=
  ⟨fun _ => Finset.Subset.refl _, fun _ _ h => h⟩

theorem stateLE_trans {a b c : SchedState} (h1 : stateLE a b) (h2 : stateLE b c) :
    stateLE a c :=
  ⟨fun sl => Finset.Subset.trans (h1.1 sl) (h2.1 sl),
   fun te sl h => h2.2 te sl (h1.2 te sl h)⟩

theorem processSlot_mono (m : String → Option Int) (st : LoopState) (sl : String) :
    stateLE st.sched (processSlot m st sl).sched := by
  cases hmatch : matchLettersDigits sl with
  | none =>
      rw [processSlot_no_parse hmatch]
      exact stateLE_refl _
  | some dp =>
      obtain ⟨d, pstr⟩ := dp
      by_cases hopen : st.table (day_map d) (natOfDigits pstr) = Cell.str ""
      · cases hfound : (scanTasks st.sched.teacher_slots (st.sched.slots_used sl) sl
            st.pool ∅ false).found with
        | some tρ =>
            obtain ⟨t, ρ⟩ := tρ
            rw [processSlot_placed hmatch hopen hfound]
            dsimp only
            constructor
            · intro sl'
              dsimp only
              by_cases hc : sl' = sl
              · rw [if_pos hc]
                exact Finset.Subset.trans (Finset.subset_insert _ _)
                  (Finset.subset_insert _ _)
              · rw [if_neg hc]
            · intro te sl' h
              dsimp only
              by_cases hc : te = t.teacher ∧ sl' = sl
              · rw [if_pos hc]
                rfl
              · rw [if_neg hc]
                exact h
        | none =>
            rw [processSlot_unplaced hmatch hopen hfound]
            exact stateLE_refl _
      · rw [processSlot_filled hmatch hopen]
        exact stateLE_refl _

theorem foldl_processSlot_mono (m : String → Option Int) (slots : List String)
    (st : LoopState) : stateLE st.sched (slots.foldl (processSlot m) st).sched := by
  induction slots generalizing st with
  | nil => exact stateLE_refl _
  | cons sl rest ih =>
      rw [List.foldl_cons]
      exact stateLE_trans (processSlot_mono m st sl) (ih (processSlot m st sl))

theorem applyLock_mono (group : String) (acc : Table × SchedState) (lk : Lock) :
    stateLE acc.2 (applyLock group acc lk).2 := by
  unfold applyLock
  by_cases hm : "ALL" ∈ lk.rooms ∨ group ∈ lk.rooms
  · rw [if_pos hm]
    cases hd : DAY_TH_TO_CODE lk.day with
    | none => exact stateLE_refl _
    | some d =>
        dsimp only
        constructor
        · intro sl'
          dsimp only
          by_cases hc : sl' = d ++ toString lk.period
          · rw [if_pos hc]
            exact Finset.subset_insert _ _
          · rw [if_neg hc]
        · intro te sl' h
          exact h
  · rw [if_neg hm]
    exact stateLE_refl _

theorem applyLocks_mono (group : String) (locks : List Lock) (T : Table) (σ : SchedState) :
    stateLE σ (applyLocks group locks T σ).2 := by
  unfold applyLocks
  suffices hgen : ∀ acc : Table × SchedState,
      stateLE acc.2 (locks.foldl (applyLock group) acc).2 from hgen (T, σ)
  induction locks with
  | nil => exact fun acc => stateLE_refl _
  | cons lk rest ih =>
      exact fun acc =>
        stateLE_trans (applyLock_mono group acc lk) (ih (applyLock group acc lk))

theorem placedNow_mono {subjects : List Task} {m : String → Option Int}
    {σ σ' : SchedState} {T : Table} (hle : stateLE σ σ')
    (h : placedNow subjects m σ T) : placedNow subjects m σ' T := by
  intro dEn p c te r hcell
  obtain ⟨d, hd, hdEn, ρ, hρu, hr, hts, hsu⟩ := h dEn p c te r hcell
  exact ⟨d, hd, hdEn, ρ, hρu, hr, hle.2 te (d ++ toString p) hts, hle.1 _ hsu⟩

theorem placedFacts_weaken {subjects : List Task} {m : String → Option Int}
    {σ0 σ : SchedState} {T : Table} (h : placedFacts subjects m σ0 σ T) :
    placedNow subjects m σ T := by
  intro dEn p c te r hcell
  obtain ⟨d, hd, hdEn, ρ, hρu, hr, _, _, hts, hsu⟩ := h dEn p c te r hcell
  exact ⟨d, hd, hdEn, ρ, hρu, hr, hts, hsu⟩

theorem day_map_inj {d1 d2 : String} (h1 : d1 ∈ dayCodes) (h2 : d2 ∈ dayCodes)
    (h : day_map d1 = day_map d2) : d1 = d2 := by
  simp only [dayCodes, List.mem_cons, List.not_mem_nil, or_false] at h1 h2
  rcases h1 with rfl | rfl | rfl | rfl | rfl <;>
    rcases h2 with rfl | rfl | rfl | rfl | rfl <;> revert h <;> decide

theorem noPlaced_placedFacts {subjects : List Task} {m : String → Option Int}
    {σ0 σ : SchedState} {T : Table} (h : noPlaced T) :
    placedFacts subjects m σ0 σ T := by
  intro dEn p c te r hcell
  have := h dEn p
  rw [hcell] at this
  cases this

theorem initialPool_roomsOK (group : String) (subjects : List Task) :
    poolRoomsOK subjects (initialPool group subjects) := by
  intro t ht ρ hρ
  have htasks : t ∈ (subsOf group subjects).flatMap
      (fun s => List.replicate (taskCount s) s) := by
    unfold initialPool at ht
    rcases List.mem_append.1 ht with ht | ht
    · rcases List.mem_append.1 ht with ht | ht
      · exact List.mem_of_mem_take (List.mem_mergeSort.1 ht)
      · exact List.mem_of_mem_drop (List.mem_of_mem_take (List.mem_mergeSort.1 ht))
    · exact List.mem_of_mem_drop (List.mem_mergeSort.1 ht)
  obtain ⟨s, hs, hts⟩ := List.mem_flatMap.1 htasks
  have hteq : t = s := List.eq_of_mem_replicate hts
  subst hteq
  have hsub : t ∈ subjects := (List.mem_filter.1 hs).1
  exact List.mem_flatMap.2 ⟨t, hsub, hρ⟩

theorem processSlot_inv (subjects : List Task) (m : String → Option Int) (σ0 : SchedState)
    (st : LoopState) (sl : String) (hsl : slotSpec sl)
    (hle : stateLE σ0 st.sched)
    (hpf : placedFacts subjects m σ0 st.sched st.table)
    (hpr : poolRoomsOK subjects st.pool) :
    stateLE σ0 (processSlot m st sl).sched ∧
    placedFacts subjects m σ0 (processSlot m st sl).sched (processSlot m st sl).table ∧
    poolRoomsOK subjects (processSlot m st sl).pool := by
  refine ⟨stateLE_trans hle (processSlot_mono m st sl), ?_, ?_⟩
  all_goals
    obtain ⟨d0, hd0, p0, hp0, rfl⟩ := hsl
    obtain ⟨hparse, hnat, hgrid⟩ := slot_parse hd0 hp0
  all_goals by_cases hopen : st.table (day_map d0) (natOfDigits (toString p0)) = Cell.str ""
  case pos =>
    cases hfound : (scanTasks st.sched.teacher_slots
        (st.sched.slots_used (d0 ++ toString p0)) (d0 ++ toString p0)
        st.pool ∅ false).found with
    | some tρ =>
        obtain ⟨t, ρ⟩ := tρ
        obtain ⟨htm, hρt, hts, hρu⟩ := scanTasks_found_sound hfound
        rw [processSlot_placed hparse hopen hfound]
        dsimp only
        intro dEn p c te r hcell
        by_cases hq : dEn = day_map d0 ∧ p = natOfDigits (toString p0)
        · obtain ⟨rfl, rfl⟩ := hq
          rw [setCell_same] at hcell
          obtain ⟨rfl, rfl, rfl⟩ := Cell.placed.inj hcell
          rw [hnat]
          refine ⟨d0, hd0, rfl, ρ, hpr t htm ρ hρt, rfl, ?_, ?_, ?_, ?_⟩
          · cases ho : σ0.teacher_slots t.teacher (d0 ++ toString p0) with
            | none => rfl
            | some x =>
                have hsome := hle.2 t.teacher (d0 ++ toString p0) (by rw [ho]; rfl)
                rw [hts] at hsome
                cases hsome
          · intro hin
            exact hρu (hle.1 _ hin)
          · dsimp only
            rw [if_pos ⟨rfl, rfl⟩]
            rfl
          · dsimp only
            rw [if_pos rfl]
            exact Finset.mem_insert_of_mem (Finset.mem_insert_self ρ _)
        · rw [setCell_other _ _ hq] at hcell
          obtain ⟨d, hd, hdEn, ρ', hρ'u, hr, hts0, hsu0, htsS, hsuS⟩ :=
            hpf dEn p c te r hcell
          refine ⟨d, hd, hdEn, ρ', hρ'u, hr, hts0, hsu0, ?_, ?_⟩
          · dsimp only
            by_cases hc : te = t.teacher ∧ (d ++ toString p) = (d0 ++ toString p0)
            · rw [if_pos hc]
              rfl
            · rw [if_neg hc]
              exact htsS
          · dsimp only
            by_cases hc : (d ++ toString p) = (d0 ++ toString p0)
            · rw [if_pos hc]
              exact Finset.mem_insert_of_mem (Finset.mem_insert_of_mem (hc ▸ hsuS))
            · rw [if_neg hc]
              exact hsuS
    | none =>
        rw [processSlot_unplaced hparse hopen hfound]
        dsimp only
        intro dEn p c te r hcell
        by_cases hq : dEn = day_map d0 ∧ p = natOfDigits (toString p0)
        · obtain ⟨rfl, rfl⟩ := hq
          rw [setCell_same] at hcell
          cases hcell
        · rw [setCell_other _ _ hq] at hcell
          exact hpf dEn p c te r hcell
  case neg =>
    rw [processSlot_filled hparse hopen]
    exact hpf
  case pos =>
    cases hfound : (scanTasks st.sched.teacher_slots
        (st.sched.slots_used (d0 ++ toString p0)) (d0 ++ toString p0)
        st.pool ∅ false).found with
    | some tρ =>
        obtain ⟨t, ρ⟩ := tρ
        rw [processSlot_placed hparse hopen hfound]
        dsimp only
        intro t' ht'
        exact hpr t' (List.erase_subset _ _ ht')
    | none =>
        rw [processSlot_unplaced hparse hopen hfound]
        exact hpr
  case neg =>
    rw [processSlot_filled hparse hopen]
    exact hpr

theorem foldl_processSlot_inv (subjects : List Task) (m : String → Option Int)
    (σ0 : SchedState) (slots : List String) (hslots : ∀ sl ∈ slots, slotSpec sl)
    (st : LoopState) (hle : stateLE σ0 st.sched)
    (hpf : placedFacts subjects m σ0 st.sched st.table)
    (hpr : poolRoomsOK subjects st.pool) :
    stateLE σ0 (slots.foldl (processSlot m) st).sched ∧
    placedFacts subjects m σ0 (slots.foldl (processSlot m) st).sched
      (slots.foldl (processSlot m) st).table ∧
    poolRoomsOK subjects (slots.foldl (processSlot m) st).pool := by
  induction slots generalizing st with
  | nil => exact ⟨hle, hpf, hpr⟩
  | cons sl rest ih =>
      rw [List.foldl_cons]
      obtain ⟨h1, h2, h3⟩ := processSlot_inv subjects m σ0 st sl
        (hslots sl (List.mem_cons_self _ _)) hle hpf hpr
      exact ih (fun s hs => hslots s (List.mem_cons_of_mem _ hs)) (processSlot m st sl) h1 h2 h3

theorem schedule_room_spec (group : String) (subjects : List Task) (σ : SchedState)
    (locks : List Lock) (m : String → Option Int) :
    stateLE σ (schedule_room group subjects σ locks m).2 ∧
    placedFacts subjects m σ (schedule_room group subjects σ locks m).2
      (schedule_room group subjects σ locks m).1.1 := by
  unfold schedule_room
  dsimp only
  obtain ⟨h1, h2, _⟩ := foldl_processSlot_inv subjects m σ
    (generate_schedule_slots (totalCredit group subjects)) (gss_slotSpec _)
    ⟨(applyLocks group locks (fun _ _ => Cell.str "") σ).1, initialPool group subjects,
      (applyLocks group locks (fun _ _ => Cell.str "") σ).2⟩
    (applyLocks_mono group locks (fun _ _ => Cell.str "") σ)
    (noPlaced_placedFacts
      (applyLocks_noPlaced group locks (fun _ _ => Cell.str "") σ (fun _ _ => rfl)))
    (initialPool_roomsOK group subjects)
  exact ⟨h1, h2⟩

theorem runStep_distinct_old_new (subjects : List Task) (locks : List Lock)
    (m : String → Option Int) (σ : SchedState) (g : String) (Told : Table)
    (hinj : ∀ ρ1 ∈ roomUniverse subjects, ∀ ρ2 ∈ roomUniverse subjects,
      convert_room_letter_to_number ρ1 m = convert_room_letter_to_number ρ2 m → ρ1 = ρ2)
    (hold : placedNow subjects m σ Told) :
    tablesDistinct Told (schedule_room g subjects σ locks m).1.1 := by
  intro dEn p c1 te1 r1 c2 te2 r2 h1 h2
  obtain ⟨da, hda, hdEna, ρa, hρau, hra, htsa, hsua⟩ := hold dEn p c1 te1 r1 h1
  obtain ⟨db, hdb, hdEnb, ρb, hρbu, hrb, htsb0, hsub0, _, _⟩ :=
    (schedule_room_spec g subjects σ locks m).2 dEn p c2 te2 r2 h2
  have hdd : da = db := day_map_inj hda hdb (hdEna ▸ hdEnb)
  subst hdd
  constructor
  · intro hte
    subst hte
    rw [htsb0] at htsa
    cases htsa
  · intro hr
    have hρab : ρa = ρb := hinj ρa hρau ρb hρbu (by rw [← hra, ← hrb, hr])
    subst hρab
    exact hsub0 hsua

theorem foldl_runStep_ok (subjects : List Task) (locks : List Lock)
    (m : String → Option Int)
    (hinj : ∀ ρ1 ∈ roomUniverse subjects, ∀ ρ2 ∈ roomUniverse subjects,
      convert_room_letter_to_number ρ1 m = convert_room_letter_to_number ρ2 m → ρ1 = ρ2)
    (groups : List String) (acc : List Table × SchedState)
    (h1 : ∀ T ∈ acc.1, placedNow subjects m acc.2 T)
    (h2 : List.Pairwise tablesDistinct acc.1) :
    (∀ T ∈ (groups.foldl (runStep subjects locks m) acc).1,
        placedNow subjects m (groups.foldl (runStep subjects locks m) acc).2 T) ∧
    List.Pairwise tablesDistinct (groups.foldl (runStep subjects locks m) acc).1 := by
  induction groups generalizing acc with
  | nil => exact ⟨h1, h2⟩
  | cons g rest ih =>
      rw [List.foldl_cons]
      apply ih
      · intro T hT
        unfold runStep at hT
        dsimp only at hT
        unfold runStep
        dsimp only
        rcases List.mem_append.1 hT with hT | hT
        · exact placedNow_mono (schedule_room_spec g subjects acc.2 locks m).1 (h1 T hT)
        · rw [List.mem_singleton.1 hT]
          exact placedFacts_weaken (schedule_room_spec g subjects acc.2 locks m).2
      · unfold runStep
        dsimp only
        rw [List.pairwise_append]
        refine ⟨h2, List.pairwise_singleton _ _, ?_⟩
        intro a ha b hb
        rw [List.mem_singleton.1 hb]
        exact runStep_distinct_old_new subjects locks m acc.2 g a hinj (h1 a ha)

/-- C1 (confirmed): no global double-booking.  Thread one shared state
through `schedule_room` for every group of a run, as the source does.  Take
any two distinct collected tables and any grid cell at which both hold a
Placement: the two placements never claim the same teacher, and — provided
the display relabeling is injective on the room identifiers the subjects can
occupy, so that the displayed room text denotes the physical room — never
claim the same room.  The teacher half needs no proviso at all. -/
theorem no_global_double_booking (groups : List String) (subjects : List Task)
    (locks : List Lock) (m : String → Option Int) (σ0 : SchedState)
    (hinj : ∀ ρ1 ∈ roomUniverse subjects, ∀ ρ2 ∈ roomUniverse subjects,
      convert_room_letter_to_number ρ1 m = convert_room_letter_to_number ρ2 m → ρ1 = ρ2)
    (i j : Nat) (hij : i < j) (hj : j < (scheduleAll groups subjects locks m σ0).1.length)
    (dEn : String) (p : Nat) (c1 te1 r1 c2 te2 r2 : String)
    (h1 : ((scheduleAll groups subjects locks m σ0).1.get
        ⟨i, Nat.lt_trans hij hj⟩) dEn p = Cell.placed c1 te1 r1)
    (h2 : ((scheduleAll groups subjects locks m σ0).1.get ⟨j, hj⟩) dEn p
        = Cell.placed c2 te2 r2) :
    te1 ≠ te2 ∧ r1 ≠ r2 := by
  have hpair : List.Pairwise tablesDistinct (scheduleAll groups subjects locks m σ0).1 := by
    unfold scheduleAll
    exact (foldl_runStep_ok subjects locks m hinj groups ([], σ0)
      (by intro T hT; cases hT) List.Pairwise.nil).2
  exact List.pairwise_iff_get.1 hpair ⟨i, Nat.lt_trans hij hj⟩ ⟨j, hj⟩ hij
    dEn p c1 te1 r1 c2 te2 r2 h1 h2

set_option maxRecDepth 100000 in
unseal List.merge List.mergeSort String.ltb Rat.add Rat.mul in
/-- Witness for C1: two groups `G1`, `G2`, with subjects taught by teachers
`T1`, `T2` in rooms `R1`, `R2`; both tables of the run place a subject at
Monday period 2, and `no_global_double_booking` applies with its injectivity,
index and cell hypotheses discharged by computation, yielding distinct
teachers and distinct rooms. -/
theorem no_global_double_booking_witness : ("T1" : String) ≠ "T2" ∧ ("R1" : String) ≠ "R2" :=
  no_global_double_booking ["G1", "G2"]
    [⟨"C1", 1, "T1", 1, "G1", ["R1"]⟩, ⟨"C2", 1, "T2", 1, "G2", ["R2"]⟩]
    [] (fun _ => none) initialState (by decide) 0 1 (by decide) (by decide)
    "Mon" 2 "C1" "T1" "R1" "C2" "T2" "R2" (by decide) (by decide)

end Scheduler